import Mathlib

/-!
Verification of the `enerturk-mail` IMAP server against its specification.

The Python source is shallowly embedded: Python `dict`s become association
lists with first-match lookup (`dget`), replace-or-append insertion
(`dinsert`, matching `d[k] = v`) and removal (`dpop`, matching
`d.pop(k, None)`); Python strings become Lean `String`s; `int` is `Int`;
fallible paths return `Option`/`Except`.  Each definition is translated
from a named function of the repository.
-/

/-! ## Python dict model (association lists, insertion order preserved) -/

def dget {α β : Type} [DecidableEq α] (d : List (α × β)) (k : α) : Option β :=
  match d with
  | [] => none
  | (k1, v1) :: rest => if k1 = k then some v1 else dget rest k

def dinsert {α β : Type} [DecidableEq α] (d : List (α × β)) (k : α) (v : β) :
    List (α × β) :=
  match d with
  | [] => [(k, v)]
  | (k1, v1) :: rest => if k1 = k then (k1, v) :: rest else (k1, v1) :: dinsert rest k v

def dpop {α β : Type} [DecidableEq α] (d : List (α × β)) (k : α) : List (α × β) :=
  match d with
  | [] => []
  | (k1, v1) :: rest => if k1 = k then rest else (k1, v1) :: dpop rest k

def dkeys {α β : Type} (d : List (α × β)) : List α := d.map Prod.fst

theorem dget_dinsert {α β : Type} [DecidableEq α] (d : List (α × β)) (k k' : α) (v : β) :
    dget (dinsert d k v) k' = if k = k' then some v else dget d k' := by
  induction d with
  | nil => simp [dget, dinsert]
  | cons p t ih =>
    obtain ⟨k1, v1⟩ := p
    by_cases h1 : k1 = k
    · subst h1
      by_cases h2 : k1 = k'
      · subst h2; simp [dget, dinsert]
      · simp [dget, dinsert, h2]
    · by_cases h2 : k1 = k'
      · subst h2
        have : ¬ k = k1 := fun h => h1 h.symm
        simp [dget, dinsert, h1, this]
      · simp [dget, dinsert, h1, h2, ih]

theorem dget_dpop_ne {α β : Type} [DecidableEq α] (d : List (α × β)) (k k' : α)
    (h : k ≠ k') : dget (dpop d k) k' = dget d k' := by
  induction d with
  | nil => simp [dget, dpop]
  | cons p t ih =>
    obtain ⟨k1, v1⟩ := p
    by_cases h1 : k1 = k
    · subst h1
      simp [dget, dpop, h]
    · simp [dget, dpop, h1, ih]

theorem dget_eq_none_iff {α β : Type} [DecidableEq α] (d : List (α × β)) (k : α) :
    dget d k = none ↔ k ∉ dkeys d := by
  induction d with
  | nil => simp [dget, dkeys]
  | cons p t ih =>
    obtain ⟨k1, v1⟩ := p
    by_cases h1 : k1 = k
    · subst h1; simp [dget, dkeys]
    · have h2 : k ≠ k1 := fun h => h1 h.symm
      simp only [dget, if_neg h1, ih, dkeys, List.map_cons, List.mem_cons]
      tauto

theorem dget_isSome_of_mem_dkeys {α β : Type} [DecidableEq α] {d : List (α × β)} {k : α}
    (h : k ∈ dkeys d) : ∃ v, dget d k = some v := by
  rcases ho : dget d k with _ | v
  · exact absurd ((dget_eq_none_iff d k).mp ho) (by simp [h])
  · exact ⟨v, rfl⟩

theorem mem_dkeys_of_dget {α β : Type} [DecidableEq α] {d : List (α × β)} {k : α} {v : β}
    (h : dget d k = some v) : k ∈ dkeys d := by
  by_contra hc
  rw [← dget_eq_none_iff] at hc
  rw [h] at hc
  exact Option.noConfusion hc

theorem dget_dpop_self {α β : Type} [DecidableEq α] (d : List (α × β)) (k : α)
    (h : (dkeys d).Nodup) : dget (dpop d k) k = none := by
  induction d with
  | nil => simp [dget, dpop]
  | cons p t ih =>
    obtain ⟨k1, v1⟩ := p
    simp only [dkeys, List.map_cons, List.nodup_cons] at h
    by_cases h1 : k1 = k
    · subst h1
      simp only [dpop, if_pos rfl]
      exact (dget_eq_none_iff t k1).mpr h.1
    · simp [dpop, h1, dget, ih h.2]

theorem dget_dpop_none {α β : Type} [DecidableEq α] (d : List (α × β)) (k k' : α)
    (h : dget d k' = none) : dget (dpop d k) k' = none := by
  induction d with
  | nil => simpa [dpop] using h
  | cons p t ih =>
    obtain ⟨k1, v1⟩ := p
    simp only [dget] at h
    by_cases h1 : k1 = k'
    · simp [h1] at h
    · simp only [dget, if_neg h1] at h
      by_cases h2 : k1 = k
      · simp [dpop, h2, dget, h1, h]
      · simp [dpop, h2, dget, h1, ih h]

theorem mem_dkeys_dpop {α β : Type} [DecidableEq α] {d : List (α × β)} {k a : α}
    (h : a ∈ dkeys (dpop d k)) : a ∈ dkeys d := by
  induction d with
  | nil => simpa [dpop] using h
  | cons p t ih =>
    obtain ⟨k1, v1⟩ := p
    by_cases h1 : k1 = k
    · simp only [dpop, if_pos h1, dkeys] at h ⊢
      simp [h]
    · simp only [dpop, if_neg h1, dkeys, List.map_cons, List.mem_cons] at h ⊢
      rcases h with h | h
      · exact Or.inl h
      · exact Or.inr (ih h)

theorem nodup_dkeys_dpop {α β : Type} [DecidableEq α] {d : List (α × β)} (k : α)
    (h : (dkeys d).Nodup) : (dkeys (dpop d k)).Nodup := by
  induction d with
  | nil => simp [dpop, dkeys]
  | cons p t ih =>
    obtain ⟨k1, v1⟩ := p
    simp only [dkeys, List.map_cons, List.nodup_cons] at h
    by_cases h1 : k1 = k
    · simpa [dpop, h1] using h.2
    · simp only [dpop, if_neg h1, dkeys, List.map_cons, List.nodup_cons]
      exact ⟨fun hm => h.1 (mem_dkeys_dpop hm), ih h.2⟩

theorem mem_dkeys_dinsert {α β : Type} [DecidableEq α] {d : List (α × β)} {k a : α} {v : β}
    (h : a ∈ dkeys (dinsert d k v)) : a ∈ dkeys d ∨ a = k := by
  induction d with
  | nil => simpa [dinsert, dkeys] using h
  | cons p t ih =>
    obtain ⟨k1, v1⟩ := p
    by_cases h1 : k1 = k
    · simp only [dinsert, if_pos h1, dkeys, List.map_cons, List.mem_cons] at h ⊢
      tauto
    · simp only [dinsert, if_neg h1, dkeys, List.map_cons, List.mem_cons] at h ⊢
      tauto

theorem nodup_dkeys_dinsert {α β : Type} [DecidableEq α] {d : List (α × β)} (k : α) (v : β)
    (h : (dkeys d).Nodup) : (dkeys (dinsert d k v)).Nodup := by
  induction d with
  | nil => simp [dinsert, dkeys]
  | cons p t ih =>
    obtain ⟨k1, v1⟩ := p
    simp only [dkeys, List.map_cons, List.nodup_cons] at h
    by_cases h1 : k1 = k
    · simp only [dinsert, if_pos h1, dkeys, List.map_cons, List.nodup_cons]
      exact ⟨h.1, h.2⟩
    · simp only [dinsert, if_neg h1, dkeys, List.map_cons, List.nodup_cons]
      refine ⟨fun hm => ?_, ih h.2⟩
      rcases mem_dkeys_dinsert hm with hm | hm
      · exact h.1 hm
      · exact h1 hm

theorem dget_dpop_some {α β : Type} [DecidableEq α] {d : List (α × β)} {k k' : α} {v : β}
    (hn : (dkeys d).Nodup) (h : dget (dpop d k) k' = some v) : dget d k' = some v := by
  by_cases he : k = k'
  · subst he
    rw [dget_dpop_self d k hn] at h
    exact Option.noConfusion h
  · rwa [dget_dpop_ne d k k' he] at h

/-! ## UID registry (src/async_storage.py, class MaildirWrapper)

`FolderState` embeds one entry of the `.uid_mapping` JSON document
(`FolderUIDData`): `uidvalidity`, `uidnext` and the two key/UID maps.
`syncUids` embeds `_sync_uids` (the filesystem key set is passed in as
`currentKeys`), `saveMessage` embeds `save_message` (the fresh Maildir key
produced by `maildir.add` is passed in as `newKey`). -/

structure FolderState where
  uidvalidity : Nat
  uidnext : Nat
  key_to_uid : List (String × Nat)
  uid_to_key : List (Nat × String)
deriving DecidableEq

/-- A fresh folder entry as created by `_get_folder_uid_data`
(`uidnext = 1`, empty maps); `v` stands for the time-based UIDVALIDITY. -/
def initState (v : Nat) : FolderState :=
  { uidvalidity := v, uidnext := 1, key_to_uid := [], uid_to_key := [] }

/-- One iteration of the deleted-keys loop of `_sync_uids`:
`uid = key_to_uid.pop(key, None); if uid: uid_to_key.pop(uid, None)`.
The `u = 0` test mirrors Python truthiness of `if uid:`. -/
def delStep (s : FolderState) (k : String) : FolderState :=
  match dget s.key_to_uid k with
  | some u =>
    let s1 := { s with key_to_uid := dpop s.key_to_uid k }
    if u = 0 then s1 else { s1 with uid_to_key := dpop s1.uid_to_key u }
  | none => { s with key_to_uid := dpop s.key_to_uid k }

def delFold (s : FolderState) (dl : List String) : FolderState := dl.foldl delStep s

/-- One iteration of the new-keys loop of `_sync_uids`:
`uid = uidnext; key_to_uid[key] = uid; uid_to_key[uid] = key; uidnext = uid + 1`. -/
def insStep (s : FolderState) (k : String) : FolderState :=
  { s with key_to_uid := dinsert s.key_to_uid k s.uidnext,
           uid_to_key := dinsert s.uid_to_key s.uidnext k,
           uidnext := s.uidnext + 1 }

def insFold (s : FolderState) (nl : List String) : FolderState := nl.foldl insStep s

/-- `deleted_keys = mapped_keys - current_keys` of `_sync_uids`. -/
def delKeysOf (s : FolderState) (ck : List String) : List String :=
  (dkeys s.key_to_uid).filter (fun k => decide (k ∉ ck))

/-- `new_keys = current_keys - mapped_keys` of `_sync_uids`. -/
def newKeysOf (s : FolderState) (ck : List String) : List String :=
  ck.filter (fun k => decide (dget s.key_to_uid k = none))

/-- `MaildirWrapper._sync_uids`, with the maildir key set passed as `ck`. -/
def syncUids (s : FolderState) (ck : List String) : FolderState :=
  insFold (delFold s (delKeysOf s ck)) (newKeysOf s ck)

/-- `MaildirWrapper.save_message`: sync, add the fresh key `k`, assign
`uidnext` to it and bump `uidnext`; returns the new state and the UID. -/
def saveMessage (s : FolderState) (ck : List String) (k : String) : FolderState × Nat :=
  let s1 := syncUids s ck
  (insStep s1 k, s1.uidnext)

/-- Well-formedness of a folder registry entry: the two maps have no
duplicate keys, are mutually inverse, and every assigned UID lies in
`[1, uidnext)`. -/
structure RegInv (s : FolderState) : Prop where
  nk : (dkeys s.key_to_uid).Nodup
  nu : (dkeys s.uid_to_key).Nodup
  inv : ∀ k u, dget s.key_to_uid k = some u ↔ dget s.uid_to_key u = some k
  bound : ∀ k u, dget s.key_to_uid k = some u → 1 ≤ u ∧ u < s.uidnext
  pos : 1 ≤ s.uidnext

theorem regInv_initState (v : Nat) : RegInv (initState v) := by
  refine ⟨List.nodup_nil, List.nodup_nil, ?_, ?_, le_refl 1⟩
  · intro k u; simp [initState, dget]
  · intro k u h; simp [initState, dget] at h

theorem regInv_insStep {s : FolderState} {k : String} (h : RegInv s)
    (hk : dget s.key_to_uid k = none) : RegInv (insStep s k) := by
  have hu : dget s.uid_to_key s.uidnext = none := by
    rcases ho : dget s.uid_to_key s.uidnext with _ | k0
    · rfl
    · have := (h.inv k0 s.uidnext).mpr ho
      have hb := (h.bound k0 s.uidnext this).2
      exact absurd hb (lt_irrefl _)
  refine ⟨?_, ?_, ?_, ?_, ?_⟩
  · exact nodup_dkeys_dinsert k s.uidnext h.nk
  · exact nodup_dkeys_dinsert s.uidnext k h.nu
  · intro k1 u1
    simp only [insStep, dget_dinsert]
    by_cases hkk : k = k1
    · subst hkk
      by_cases huu : s.uidnext = u1
      · subst huu; simp
      · simp only [if_pos rfl, if_neg huu]
        constructor
        · intro he
          exact absurd (Option.some.inj he) huu
        · intro he
          have := (h.inv k u1).mpr he
          rw [hk] at this
          exact Option.noConfusion this
    · by_cases huu : s.uidnext = u1
      · subst huu
        simp only [if_neg hkk, if_pos rfl]
        constructor
        · intro he
          have hb := (h.bound k1 s.uidnext he).2
          exact absurd hb (lt_irrefl _)
        · intro he
          exact absurd (Option.some.inj he) hkk
      · simp only [if_neg hkk, if_neg huu]
        exact h.inv k1 u1
  · intro k1 u1
    simp only [insStep, dget_dinsert]
    by_cases hkk : k = k1
    · subst hkk
      simp only [if_pos rfl]
      intro he
      have : u1 = s.uidnext := (Option.some.inj he).symm
      subst this
      exact ⟨h.pos, Nat.lt_succ_self _⟩
    · simp only [if_neg hkk]
      intro he
      have hb := h.bound k1 u1 he
      exact ⟨hb.1, Nat.lt_succ_of_lt hb.2⟩
  · exact Nat.le_succ_of_le h.pos

theorem regInv_delStep {s : FolderState} (k : String) (h : RegInv s) : RegInv (delStep s k) := by
  rcases ho : dget s.key_to_uid k with _ | u
  · refine ⟨?_, ?_, ?_, ?_, ?_⟩
    · simp only [delStep, ho]
      exact nodup_dkeys_dpop k h.nk
    · simp only [delStep, ho]
      exact h.nu
    · intro k1 u1
      simp only [delStep, ho]
      by_cases hkk : k1 = k
      · subst hkk
        rw [dget_dpop_self _ _ h.nk]
        constructor
        · intro he; exact Option.noConfusion he
        · intro he
          have := (h.inv k1 u1).mpr he
          rw [ho] at this
          exact Option.noConfusion this
      · rw [dget_dpop_ne _ _ _ (fun he => hkk he.symm)]
        exact h.inv k1 u1
    · intro k1 u1
      simp only [delStep, ho]
      intro he
      exact h.bound k1 u1 (dget_dpop_some h.nk he)
    · simp only [delStep, ho]
      exact h.pos
  · have hu1 : 1 ≤ u := (h.bound k u ho).1
    have hz : ¬ u = 0 := by omega
    refine ⟨?_, ?_, ?_, ?_, ?_⟩
    · simp only [delStep, ho, if_neg hz]
      exact nodup_dkeys_dpop k h.nk
    · simp only [delStep, ho, if_neg hz]
      exact nodup_dkeys_dpop u h.nu
    · intro k1 u1
      simp only [delStep, ho, if_neg hz]
      by_cases hkk : k1 = k
      · subst hkk
        rw [dget_dpop_self _ _ h.nk]
        constructor
        · intro he; exact Option.noConfusion he
        · intro he
          by_cases huu : u1 = u
          · subst huu
            rw [dget_dpop_self _ _ h.nu] at he
            exact Option.noConfusion he
          · rw [dget_dpop_ne _ _ _ (fun hh => huu hh.symm)] at he
            have := (h.inv k1 u1).mpr he
            rw [ho] at this
            exact absurd (Option.some.inj this).symm huu
      · by_cases huu : u1 = u
        · subst huu
          rw [dget_dpop_ne _ _ _ (fun he => hkk he.symm), dget_dpop_self _ _ h.nu]
          constructor
          · intro he
            have hk1 := (h.inv k1 u1).mp he
            have hk2 := (h.inv k u1).mp ho
            rw [hk1] at hk2
            exact absurd (Option.some.inj hk2) hkk
          · intro he; exact Option.noConfusion he
        · rw [dget_dpop_ne _ _ _ (fun he => hkk he.symm),
              dget_dpop_ne _ _ _ (fun he => huu he.symm)]
          exact h.inv k1 u1
    · intro k1 u1
      simp only [delStep, ho, if_neg hz]
      intro he
      exact h.bound k1 u1 (dget_dpop_some h.nk he)
    · simp only [delStep, ho, if_neg hz]
      exact h.pos

theorem regInv_delFold {s : FolderState} {dl : List String} (h : RegInv s) : RegInv (delFold s dl) := by
  induction dl generalizing s with
  | nil => exact h
  | cons k t ih => exact ih (regInv_delStep k h)

theorem regInv_insFold {s : FolderState} {nl : List String} (h : RegInv s) (hnd : nl.Nodup)
    (hun : ∀ k ∈ nl, dget s.key_to_uid k = none) : RegInv (insFold s nl) := by
  induction nl generalizing s with
  | nil => exact h
  | cons k t ih =>
    simp only [List.nodup_cons] at hnd
    refine ih (regInv_insStep h (hun k (by simp))) hnd.2 ?_
    intro k' hk'
    have hne : ¬ k = k' := fun he => hnd.1 (he ▸ hk')
    simp only [insStep, dget_dinsert, if_neg hne]
    exact hun k' (by simp [hk'])

/-! ### Lookup behaviour of the two `_sync_uids` loops -/

theorem uidnext_delStep (s : FolderState) (k : String) :
    (delStep s k).uidnext = s.uidnext := by
  rcases ho : dget s.key_to_uid k with _ | u
  · simp [delStep, ho]
  · by_cases hz : u = 0 <;> simp [delStep, ho, hz]

theorem uidnext_delFold (s : FolderState) (dl : List String) :
    (delFold s dl).uidnext = s.uidnext := by
  induction dl generalizing s with
  | nil => rfl
  | cons k t ih =>
    rw [delFold, List.foldl_cons, ← delFold, ih, uidnext_delStep]

theorem uidnext_insFold_ge (s : FolderState) (nl : List String) :
    s.uidnext ≤ (insFold s nl).uidnext := by
  induction nl generalizing s with
  | nil => exact le_refl _
  | cons k t ih =>
    calc s.uidnext ≤ (insStep s k).uidnext := Nat.le_succ _
    _ ≤ _ := ih (insStep s k)

theorem uidnext_syncUids_ge (s : FolderState) (ck : List String) :
    s.uidnext ≤ (syncUids s ck).uidnext := by
  unfold syncUids
  calc s.uidnext = (delFold s (delKeysOf s ck)).uidnext := (uidnext_delFold s _).symm
  _ ≤ _ := uidnext_insFold_ge _ _

theorem dget_delStep_modif (s : FolderState) (k k' : String) :
    dget (delStep s k).key_to_uid k' = dget (dpop s.key_to_uid k) k' := by
  rcases ho : dget s.key_to_uid k with _ | u
  · simp [delStep, ho]
  · by_cases hz : u = 0 <;> simp [delStep, ho, hz]

theorem dget_delFold_of_not_mem {dl : List String} (s : FolderState) {k : String}
    (h : k ∉ dl) : dget (delFold s dl).key_to_uid k = dget s.key_to_uid k := by
  induction dl generalizing s with
  | nil => rfl
  | cons k0 t ih =>
    simp only [List.mem_cons, not_or] at h
    rw [delFold, List.foldl_cons, ← delFold, ih _ h.2, dget_delStep_modif,
        dget_dpop_ne _ _ _ (fun he => h.1 he.symm)]

theorem dget_delFold_none_pres {dl : List String} (s : FolderState) {k : String}
    (h : dget s.key_to_uid k = none) : dget (delFold s dl).key_to_uid k = none := by
  induction dl generalizing s with
  | nil => exact h
  | cons k0 t ih =>
    rw [delFold, List.foldl_cons, ← delFold]
    exact ih _ (by rw [dget_delStep_modif]; exact dget_dpop_none _ _ _ h)

theorem dget_delFold_mem_none {dl : List String} {s : FolderState} {k : String}
    (hI : RegInv s) (h : k ∈ dl) : dget (delFold s dl).key_to_uid k = none := by
  induction dl generalizing s with
  | nil => simp at h
  | cons k0 t ih =>
    rw [delFold, List.foldl_cons, ← delFold]
    by_cases he : k0 = k
    · subst he
      exact dget_delFold_none_pres _ (by rw [dget_delStep_modif]; exact dget_dpop_self _ _ hI.nk)
    · rcases List.mem_cons.mp h with h | h
      · exact absurd h.symm he
      · exact ih (regInv_delStep k0 hI) h

theorem dget_delFold_some {dl : List String} {s : FolderState} {k : String} {u : Nat}
    (hI : RegInv s) (h : dget (delFold s dl).key_to_uid k = some u) :
    dget s.key_to_uid k = some u := by
  induction dl generalizing s with
  | nil => exact h
  | cons k0 t ih =>
    rw [delFold, List.foldl_cons, ← delFold] at h
    have h2 := ih (regInv_delStep k0 hI) h
    rw [dget_delStep_modif] at h2
    exact dget_dpop_some hI.nk h2

theorem dget_insFold_of_not_mem {nl : List String} (s : FolderState) {k : String}
    (h : k ∉ nl) : dget (insFold s nl).key_to_uid k = dget s.key_to_uid k := by
  induction nl generalizing s with
  | nil => rfl
  | cons k0 t ih =>
    simp only [List.mem_cons, not_or] at h
    rw [insFold, List.foldl_cons, ← insFold, ih _ h.2]
    have hne : ¬ k0 = k := fun he => h.1 he.symm
    simp [insStep, dget_dinsert, hne]

theorem dget_insFold_mem {nl : List String} {s : FolderState} {k : String}
    (hnd : nl.Nodup) (hun : ∀ k' ∈ nl, dget s.key_to_uid k' = none) (h : k ∈ nl) :
    ∃ u, dget (insFold s nl).key_to_uid k = some u ∧ s.uidnext ≤ u := by
  induction nl generalizing s with
  | nil => simp at h
  | cons k0 t ih =>
    simp only [List.nodup_cons] at hnd
    rw [insFold, List.foldl_cons, ← insFold]
    by_cases he : k0 = k
    · subst he
      refine ⟨s.uidnext, ?_, le_refl _⟩
      rw [dget_insFold_of_not_mem _ hnd.1]
      simp [insStep, dget_dinsert]
    · rcases List.mem_cons.mp h with h | h
      · exact absurd h.symm he
      · have hun' : ∀ k' ∈ t, dget (insStep s k0).key_to_uid k' = none := by
          intro k' hk'
          have : ¬ k0 = k' := fun hh => hnd.1 (hh ▸ hk')
          simp only [insStep, dget_dinsert, if_neg this]
          exact hun k' (by simp [hk'])
        obtain ⟨u, hu, hle⟩ := ih hnd.2 hun' h
        exact ⟨u, hu, le_trans (Nat.le_succ _) hle⟩

theorem dget_insFold_some_src {nl : List String} {s : FolderState} {k : String} {u : Nat}
    (h : dget (insFold s nl).key_to_uid k = some u) :
    k ∈ nl ∨ dget s.key_to_uid k = some u := by
  induction nl generalizing s with
  | nil => exact Or.inr h
  | cons k0 t ih =>
    rw [insFold, List.foldl_cons, ← insFold] at h
    rcases ih h with h | h
    · exact Or.inl (by simp [h])
    · by_cases he : k0 = k
      · exact Or.inl (by simp [he])
      · simp only [insStep, dget_dinsert, if_neg he] at h
        exact Or.inr h

/-! ### `_sync_uids`: well-formedness, membership and idempotence -/

theorem newKeysOf_nodup {s : FolderState} {ck : List String} (hck : ck.Nodup) :
    (newKeysOf s ck).Nodup := hck.filter _

theorem mem_newKeysOf {s : FolderState} {ck : List String} {k : String} :
    k ∈ newKeysOf s ck ↔ k ∈ ck ∧ dget s.key_to_uid k = none := by
  simp [newKeysOf, List.mem_filter]

theorem mem_delKeysOf {s : FolderState} {ck : List String} {k : String} :
    k ∈ delKeysOf s ck ↔ k ∈ dkeys s.key_to_uid ∧ k ∉ ck := by
  simp [delKeysOf, List.mem_filter]

theorem regInv_syncUids {s : FolderState} {ck : List String} (h : RegInv s)
    (hck : ck.Nodup) : RegInv (syncUids s ck) := by
  refine regInv_insFold (regInv_delFold h) (newKeysOf_nodup hck) ?_
  intro k hk
  exact dget_delFold_none_pres _ (mem_newKeysOf.mp hk).2

theorem dget_syncUids_pres {s : FolderState} {ck : List String} {k : String} {u : Nat}
    (hmem : k ∈ ck) (hmap : dget s.key_to_uid k = some u) :
    dget (syncUids s ck).key_to_uid k = some u := by
  have hdl : k ∉ delKeysOf s ck := fun hc => (mem_delKeysOf.mp hc).2 hmem
  have hnl : k ∉ newKeysOf s ck := fun hc => by
    rw [(mem_newKeysOf.mp hc).2] at hmap
    exact Option.noConfusion hmap
  rw [syncUids, dget_insFold_of_not_mem _ hnl, dget_delFold_of_not_mem _ hdl]
  exact hmap

theorem dget_syncUids_mem {s : FolderState} {ck : List String} {k : String}
    (hck : ck.Nodup) (hmem : k ∈ ck) :
    ∃ u, dget (syncUids s ck).key_to_uid k = some u := by
  rcases ho : dget s.key_to_uid k with _ | u
  · have hnl : k ∈ newKeysOf s ck := mem_newKeysOf.mpr ⟨hmem, ho⟩
    obtain ⟨u, hu, _⟩ := dget_insFold_mem (newKeysOf_nodup hck)
      (fun k' hk' => dget_delFold_none_pres _ (mem_newKeysOf.mp hk').2) hnl
    exact ⟨u, hu⟩
  · exact ⟨u, dget_syncUids_pres hmem ho⟩

theorem dget_syncUids_sub {s : FolderState} {ck : List String} {k : String} {u : Nat}
    (h : RegInv s) (hu : dget (syncUids s ck).key_to_uid k = some u) : k ∈ ck := by
  rw [syncUids] at hu
  rcases dget_insFold_some_src hu with hm | hm
  · exact (mem_newKeysOf.mp hm).1
  · by_contra hc
    have hsrc := dget_delFold_some h hm
    have hdl : k ∈ delKeysOf s ck := mem_delKeysOf.mpr ⟨mem_dkeys_of_dget hsrc, hc⟩
    rw [dget_delFold_mem_none h hdl] at hm
    exact Option.noConfusion hm

theorem syncUids_idem {s : FolderState} {ck : List String} (h : RegInv s)
    (hck : ck.Nodup) : syncUids (syncUids s ck) ck = syncUids s ck := by
  have hI : RegInv (syncUids s ck) := regInv_syncUids h hck
  have hdel : delKeysOf (syncUids s ck) ck = [] := by
    rw [delKeysOf, List.filter_eq_nil_iff]
    intro k hk
    obtain ⟨u, hu⟩ := dget_isSome_of_mem_dkeys hk
    simp [dget_syncUids_sub h hu]
  have hnew : newKeysOf (syncUids s ck) ck = [] := by
    rw [newKeysOf, List.filter_eq_nil_iff]
    intro k hk
    obtain ⟨u, hu⟩ := @dget_syncUids_mem s ck k hck hk
    simp [hu]
  rw [syncUids, hdel, hnew]
  rfl

/-! ### Reachable registry states (sequences of `_sync_uids` / `save_message`) -/

/-- One registry operation.  `sync` reconciles against a duplicate-free
maildir key listing; `save` appends a message whose fresh maildir key is
not among the current keys. -/
inductive RegStep : FolderState → FolderState → Prop where
  | sync (s : FolderState) (ck : List String) (h : ck.Nodup) : RegStep s (syncUids s ck)
  | save (s : FolderState) (ck : List String) (k : String) (h : ck.Nodup)
      (hk : k ∉ ck) : RegStep s (saveMessage s ck k).1

/-- Registry states reachable from a fresh folder entry. -/
def Reachable (s : FolderState) : Prop :=
  ∃ v, Relation.ReflTransGen RegStep (initState v) s

theorem regInv_regStep {s s' : FolderState} (h : RegInv s) (hs : RegStep s s') :
    RegInv s' := by
  cases hs with
  | sync ck hck => exact regInv_syncUids h hck
  | save ck k hck hk =>
    refine regInv_insStep (regInv_syncUids h hck) ?_
    rcases ho : dget (syncUids s ck).key_to_uid k with _ | u
    · rfl
    · exact absurd (dget_syncUids_sub h ho) hk

theorem reachable_regInv {s : FolderState} (h : Reachable s) : RegInv s := by
  obtain ⟨v, hsteps⟩ := h
  induction hsteps with
  | refl => exact regInv_initState v
  | tail _ hstep ih => exact regInv_regStep ih hstep

theorem regStep_uidnext_le {s s' : FolderState} (hs : RegStep s s') :
    s.uidnext ≤ s'.uidnext := by
  cases hs with
  | sync ck hck => exact uidnext_syncUids_ge s ck
  | save ck k hck hk =>
    calc s.uidnext ≤ (syncUids s ck).uidnext := uidnext_syncUids_ge s ck
    _ ≤ _ := Nat.le_succ _

theorem regSteps_uidnext_le {s s' : FolderState}
    (hs : Relation.ReflTransGen RegStep s s') : s.uidnext ≤ s'.uidnext := by
  induction hs with
  | refl => exact le_refl _
  | tail _ hstep ih => exact le_trans ih (regStep_uidnext_le hstep)

/-! ## Claims C1 and C2 -/

/-- C1: for every folder registry state reachable by any sequence of
reconcile (`_sync_uids`) and `save_message` operations, `key_to_uid` and
`uid_to_key` are exact inverses: `key_to_uid[k] = u` holds if and only if
`uid_to_key[u] = k`. -/
theorem claim_uid_maps_inverse (s : FolderState) (h : Reachable s) :
    ∀ k u, dget s.key_to_uid k = some u ↔ dget s.uid_to_key u = some k :=
  (reachable_regInv h).inv

theorem claim_uid_maps_inverse_witness :
    dget ((saveMessage (initState 7) [] "m1").1).key_to_uid "m1" = some 1 ↔
      dget ((saveMessage (initState 7) [] "m1").1).uid_to_key 1 = some "m1" :=
  claim_uid_maps_inverse _
    ⟨7, Relation.ReflTransGen.single
      (RegStep.save (initState 7) [] "m1" List.nodup_nil (by simp))⟩ "m1" 1

/-- C2: along every run of reconcile / `save_message` operations, `uidnext`
strictly dominates every UID assigned at any earlier point (in particular
no operation, deletion included, ever decreases `uidnext`), so deleting a
message and then saving a new one assigns the new message a UID strictly
larger than the deleted message's UID (third conjunct, where the deleted
key `k` is absent from the current key listing `ck`). -/
theorem claim_uidnext_dominates_uids (s s' : FolderState) (h : Reachable s)
    (hs : Relation.ReflTransGen RegStep s s') :
    (∀ k u, dget s.key_to_uid k = some u → u < s'.uidnext) ∧
    (∀ ck, s.uidnext ≤ (syncUids s ck).uidnext) ∧
    (∀ ck knew k u, dget s.key_to_uid k = some u → k ∉ ck →
        u < (saveMessage s ck knew).2) := by
  have hI : RegInv s := reachable_regInv h
  refine ⟨?_, ?_, ?_⟩
  · intro k u hu
    exact lt_of_lt_of_le ((hI.bound k u hu).2) (regSteps_uidnext_le hs)
  · intro ck
    exact uidnext_syncUids_ge s ck
  · intro ck knew k u hu _hk
    exact lt_of_lt_of_le ((hI.bound k u hu).2) (uidnext_syncUids_ge s ck)

theorem claim_uidnext_dominates_uids_witness :
    1 < (saveMessage ((saveMessage (initState 3) [] "a").1) [] "b").2 := by
  have hreach : Reachable ((saveMessage (initState 3) [] "a").1) :=
    ⟨3, Relation.ReflTransGen.single
      (RegStep.save (initState 3) [] "a" List.nodup_nil (by simp))⟩
  exact (claim_uidnext_dominates_uids _ _ hreach Relation.ReflTransGen.refl).2.2
    [] "b" "a" 1 (by decide) (by simp)

/-! ## FETCH sequence numbering (src/server/imap_server.py, FetchProcessor)

`getUidFromKey` / `getKeyFromUid` embed `MaildirWrapper.get_uid_from_key`
and `get_key_from_uid` (each reconciles first, then looks up); the state
they return is the registry state after the reconcile.  `messagePairs`
embeds `_get_message_uid_key_pairs`, `targetsFromSeqList` embeds
`_get_targets_from_seq_list` and `targetsFromUidList` embeds
`_get_targets_from_uid_list`. -/

def getUidFromKey (s : FolderState) (ck : List String) (k : String) :
    FolderState × Option Nat :=
  (syncUids s ck, dget (syncUids s ck).key_to_uid k)

def getKeyFromUid (s : FolderState) (ck : List String) (u : Nat) :
    FolderState × Option String :=
  (syncUids s ck, dget (syncUids s ck).uid_to_key u)

/-- Stable insertion of a `(uid, key)` pair into a list sorted by UID,
modelling the effect of Python `sorted(..., key=lambda pair: pair[0])`. -/
def insortPair (x : Nat × String) : List (Nat × String) → List (Nat × String)
  | [] => [x]
  | y :: ys => if y.1 ≤ x.1 then y :: insortPair x ys else x :: y :: ys

def sortPairs (l : List (Nat × String)) : List (Nat × String) :=
  l.foldl (fun acc x => insortPair x acc) []

/-- The key loop of `_get_message_uid_key_pairs`: walk the key listing,
look each key's UID up (reconciling each time), collect `(uid, key)`. -/
def messagePairsGo (ck : List String) :
    List String → FolderState → List (Nat × String) → FolderState × List (Nat × String)
  | [], s, acc => (s, sortPairs acc)
  | k :: t, s, acc =>
    let r := getUidFromKey s ck k
    match r.2 with
    | some u => messagePairsGo ck t r.1 (acc ++ [(u, k)])
    | none => messagePairsGo ck t r.1 acc

def messagePairs (s : FolderState) (ck : List String) :
    FolderState × List (Nat × String) :=
  messagePairsGo ck ck s []

/-- `_get_targets_from_seq_list`: keep sequence numbers within
`[1, len(pairs)]` and index into the sorted pair list. -/
def targetsFromSeqList (seqList : List Int) (pairs : List (Nat × String)) :
    List (Int × Nat × String) :=
  seqList.foldl (fun acc sq =>
    if 1 ≤ sq ∧ sq ≤ (pairs.length : Int) then
      match pairs.get? (sq - 1).toNat with
      | some p => acc ++ [(sq, p.1, p.2)]
      | none => acc
    else acc) []

/-- `uid_to_seq = {uid: seq for seq, (uid, _) in enumerate(message_pairs, 1)}`:
left-to-right dict build, later entries overwrite earlier ones. -/
def seqDictAux (n : Int) (d : List (Nat × Int)) : List (Nat × String) → List (Nat × Int)
  | [] => d
  | p :: t => seqDictAux (n + 1) (dinsert d p.1 n) t

def uidSeqDict (pairs : List (Nat × String)) : List (Nat × Int) :=
  seqDictAux 1 [] pairs

/-- The per-UID loop of `_get_targets_from_uid_list`: look the key up via
`get_key_from_uid` (which reconciles), consult `uid_to_seq` with default
`-1`, and collect `(seq, uid, key)` triples. -/
def targetsFromUidListGo (ck : List String) (pairs : List (Nat × String)) :
    List Nat → FolderState → List (Int × Nat × String) →
      FolderState × List (Int × Nat × String)
  | [], s, acc => (s, acc)
  | u :: t, s, acc =>
    let r := getKeyFromUid s ck u
    match r.2 with
    | some k =>
      targetsFromUidListGo ck pairs t r.1
        (acc ++ [((dget (uidSeqDict pairs) u).getD (-1), u, k)])
    | none => targetsFromUidListGo ck pairs t r.1 acc

/-- `_get_targets_from_uid_list`. -/
def targetsFromUidList (uidList : List Nat) (s : FolderState) (ck : List String)
    (pairs : List (Nat × String)) : FolderState × List (Int × Nat × String) :=
  targetsFromUidListGo ck pairs uidList s []

/-- The value of `message_pairs` before sorting, as a pure function of the
reconciled state. -/
def rawPairs (s1 : FolderState) (ck : List String) : List (Nat × String) :=
  ck.filterMap (fun k => (dget s1.key_to_uid k).map (fun u => (u, k)))

theorem insortPair_perm (x : Nat × String) (l : List (Nat × String)) :
    (insortPair x l).Perm (x :: l) := by
  induction l with
  | nil => exact List.Perm.refl _
  | cons y ys ih =>
    by_cases h : y.1 ≤ x.1
    · simp only [insortPair, if_pos h]
      exact (ih.cons y).trans (List.Perm.swap x y ys)
    · simp only [insortPair, if_neg h]
      exact List.Perm.refl _

theorem sortPairs_perm (l : List (Nat × String)) : (sortPairs l).Perm l := by
  suffices h : ∀ (l acc : List (Nat × String)),
      (l.foldl (fun acc x => insortPair x acc) acc).Perm (acc ++ l) by
    simpa using h l []
  intro l
  induction l with
  | nil => intro acc; simp
  | cons x t ih =>
    intro acc
    simp only [List.foldl_cons]
    refine (ih (insortPair x acc)).trans ?_
    refine ((insortPair_perm x acc).append_right t).trans ?_
    exact List.perm_middle.symm

theorem mem_insortPair {x a : Nat × String} {l : List (Nat × String)} :
    a ∈ insortPair x l ↔ a = x ∨ a ∈ l := by
  rw [(insortPair_perm x l).mem_iff, List.mem_cons]

theorem pairwise_le_insortPair {x : Nat × String} {l : List (Nat × String)}
    (h : List.Pairwise (fun a b : Nat × String => a.1 ≤ b.1) l) :
    List.Pairwise (fun a b : Nat × String => a.1 ≤ b.1) (insortPair x l) := by
  induction l with
  | nil => simp [insortPair]
  | cons y ys ih =>
    rw [List.pairwise_cons] at h
    by_cases hle : y.1 ≤ x.1
    · rw [insortPair, if_pos hle, List.pairwise_cons]
      refine ⟨fun z hz => ?_, ih h.2⟩
      rcases mem_insortPair.mp hz with hz | hz
      · exact hz ▸ hle
      · exact h.1 z hz
    · rw [insortPair, if_neg hle, List.pairwise_cons]
      have hxy : x.1 ≤ y.1 := le_of_not_le hle
      refine ⟨fun z hz => ?_, List.pairwise_cons.mpr h⟩
      rcases List.mem_cons.mp hz with hz | hz
      · exact hz ▸ hxy
      · exact le_trans hxy (h.1 z hz)

theorem pairwise_le_sortPairs (l : List (Nat × String)) :
    List.Pairwise (fun a b : Nat × String => a.1 ≤ b.1) (sortPairs l) := by
  suffices aux : ∀ (l acc : List (Nat × String)),
      List.Pairwise (fun a b : Nat × String => a.1 ≤ b.1) acc →
      List.Pairwise (fun a b : Nat × String => a.1 ≤ b.1)
        (l.foldl (fun acc x => insortPair x acc) acc) by
    exact aux l [] (by simp)
  intro l
  induction l with
  | nil => intro acc h; exact h
  | cons x t ih =>
    intro acc h
    simp only [List.foldl_cons]
    exact ih _ (pairwise_le_insortPair h)

theorem mem_rawPairs {s1 : FolderState} {ck : List String} {u : Nat} {k : String} :
    (u, k) ∈ rawPairs s1 ck ↔ k ∈ ck ∧ dget s1.key_to_uid k = some u := by
  simp only [rawPairs, List.mem_filterMap]
  constructor
  · rintro ⟨a, ha, he⟩
    rcases ho : dget s1.key_to_uid a with _ | w
    · rw [ho] at he; simp at he
    · rw [ho] at he
      simp only [Option.map_some', Option.some.injEq, Prod.mk.injEq] at he
      obtain ⟨h1, h2⟩ := he
      subst h1; subst h2
      exact ⟨ha, ho⟩
  · rintro ⟨hk, hu⟩
    exact ⟨k, hk, by rw [hu]; rfl⟩

theorem rawPairs_fst_nodup {s1 : FolderState} {ck : List String} (hI : RegInv s1)
    (hck : ck.Nodup) : ((rawPairs s1 ck).map Prod.fst).Nodup := by
  have hpw : List.Pairwise (fun a b : Nat × String => a.1 ≠ b.1) (rawPairs s1 ck) := by
    rw [rawPairs, List.pairwise_filterMap]
    refine hck.imp ?_
    intro a b hab p hp q hq
    rcases ho1 : dget s1.key_to_uid a with _ | ua
    · rw [ho1] at hp; simp at hp
    · rw [ho1] at hp
      simp only [Option.map_some', Option.mem_def, Option.some.injEq] at hp
      rcases ho2 : dget s1.key_to_uid b with _ | ub
      · rw [ho2] at hq; simp at hq
      · rw [ho2] at hq
        simp only [Option.map_some', Option.mem_def, Option.some.injEq] at hq
        subst hp; subst hq
        intro he
        simp only at he
        subst he
        have h1 := (hI.inv a ua).mp ho1
        have h2 := (hI.inv b ua).mp ho2
        rw [h1] at h2
        exact hab (Option.some.inj h2)
  exact List.pairwise_map.mpr hpw

theorem rawPairs_cons_none {s1 : FolderState} {k : String} {t : List String}
    (ho : dget s1.key_to_uid k = none) : rawPairs s1 (k :: t) = rawPairs s1 t := by
  simp [rawPairs, List.filterMap_cons, ho]

theorem rawPairs_cons_some {s1 : FolderState} {k : String} {t : List String} {u : Nat}
    (ho : dget s1.key_to_uid k = some u) :
    rawPairs s1 (k :: t) = (u, k) :: rawPairs s1 t := by
  simp [rawPairs, List.filterMap_cons, ho]

theorem messagePairsGo_fix {ck : List String} {s : FolderState}
    (hfix : syncUids s ck = s) :
    ∀ (t : List String) (acc : List (Nat × String)),
      messagePairsGo ck t s acc = (s, sortPairs (acc ++ rawPairs s t)) := by
  intro t
  induction t with
  | nil => intro acc; simp [messagePairsGo, rawPairs]
  | cons k t ih =>
    intro acc
    simp only [messagePairsGo, getUidFromKey, hfix]
    rcases ho : dget s.key_to_uid k with _ | u
    · simp only [ho]
      rw [ih acc, rawPairs_cons_none ho]
    · simp only [ho]
      rw [ih (acc ++ [(u, k)]), rawPairs_cons_some ho, List.append_assoc]
      rfl

theorem messagePairs_nil (s : FolderState) : messagePairs s [] = (s, []) := by
  simp [messagePairs, messagePairsGo, sortPairs]

theorem messagePairs_eq {s : FolderState} {ck : List String} (hI : RegInv s)
    (hck : ck.Nodup) (hne : ck ≠ []) :
    messagePairs s ck = (syncUids s ck, sortPairs (rawPairs (syncUids s ck) ck)) := by
  obtain ⟨k, t, rfl⟩ : ∃ k t, ck = k :: t := by
    cases ck with
    | nil => exact absurd rfl hne
    | cons a b => exact ⟨a, b, rfl⟩
  have hfix := syncUids_idem hI hck
  simp only [messagePairs, messagePairsGo, getUidFromKey]
  rcases ho : dget (syncUids s (k :: t)).key_to_uid k with _ | u
  · simp only [ho, messagePairsGo_fix hfix, List.nil_append]
    rw [rawPairs_cons_none ho]
  · simp only [ho, messagePairsGo_fix hfix, List.nil_append, List.singleton_append]
    rw [rawPairs_cons_some ho]

theorem dget_seqDictAux_not_mem {u : Nat} :
    ∀ (t : List (Nat × String)) (n : Int) (d : List (Nat × Int)),
      u ∉ t.map Prod.fst → dget (seqDictAux n d t) u = dget d u := by
  intro t
  induction t with
  | nil => intro n d _; rfl
  | cons p t ih =>
    intro n d h
    simp only [List.map_cons, List.mem_cons, not_or] at h
    rw [seqDictAux, ih _ _ h.2, dget_dinsert]
    exact if_neg (fun he => h.1 he.symm)

theorem dget_seqDictAux_get? :
    ∀ (t : List (Nat × String)) (i : Nat) (u : Nat) (k : String) (n : Int)
      (d : List (Nat × Int)), (t.map Prod.fst).Nodup → t.get? i = some (u, k) →
      dget (seqDictAux n d t) u = some (n + i) := by
  intro t
  induction t with
  | nil => intro i u k n d _ h; simp [List.get?] at h
  | cons p t ih =>
    intro i u k n d hnd h
    simp only [List.map_cons, List.nodup_cons] at hnd
    cases i with
    | zero =>
      simp only [List.get?] at h
      have hp := Option.some.inj h
      subst hp
      rw [seqDictAux, dget_seqDictAux_not_mem t (n + 1) _ hnd.1, dget_dinsert]
      simp
    | succ j =>
      simp only [List.get?] at h
      rw [seqDictAux, ih j u k (n + 1) _ hnd.2 h]
      congr 1
      push_cast
      ring

theorem dget_uidSeqDict_get? {pairs : List (Nat × String)} {i : Nat} {u : Nat} {k : String}
    (hnd : (pairs.map Prod.fst).Nodup) (h : pairs.get? i = some (u, k)) :
    dget (uidSeqDict pairs) u = some ((i : Int) + 1) := by
  rw [uidSeqDict, dget_seqDictAux_get? pairs i u k 1 [] hnd h]
  congr 1
  omega

theorem targetsFromSeqList_spec (seqList : List Int) (pairs : List (Nat × String)) :
    ∀ x ∈ targetsFromSeqList seqList pairs,
      1 ≤ x.1 ∧ pairs.get? (x.1 - 1).toNat = some x.2 := by
  suffices aux : ∀ (sl : List Int) (acc : List (Int × Nat × String)),
      (∀ x ∈ acc, 1 ≤ x.1 ∧ pairs.get? (x.1 - 1).toNat = some x.2) →
      ∀ x ∈ sl.foldl (fun acc sq =>
          if 1 ≤ sq ∧ sq ≤ (pairs.length : Int) then
            match pairs.get? (sq - 1).toNat with
            | some p => acc ++ [(sq, p.1, p.2)]
            | none => acc
          else acc) acc,
        1 ≤ x.1 ∧ pairs.get? (x.1 - 1).toNat = some x.2 by
    exact aux seqList [] (by simp)
  intro sl
  induction sl with
  | nil => intro acc h; exact h
  | cons sq t ih =>
    intro acc h
    simp only [List.foldl_cons]
    by_cases hg : 1 ≤ sq ∧ sq ≤ (pairs.length : Int)
    · rw [if_pos hg]
      rcases ho : pairs.get? (sq - 1).toNat with _ | p
      · exact ih acc h
      · refine ih _ ?_
        intro x hx
        rcases List.mem_append.mp hx with hx | hx
        · exact h x hx
        · rcases List.mem_singleton.mp hx with rfl
          exact ⟨hg.1, by rw [ho]⟩
    · rw [if_neg hg]
      exact ih acc h

theorem targetsFromUidListGo_nil {pairs : List (Nat × String)} :
    ∀ (ul : List Nat) (s : FolderState) (acc : List (Int × Nat × String)),
      RegInv s → (targetsFromUidListGo [] pairs ul s acc).2 = acc := by
  intro ul
  induction ul with
  | nil => intro s acc _; rfl
  | cons u t ih =>
    intro s acc hI
    have hnone : dget (syncUids s []).uid_to_key u = none := by
      rcases ho : dget (syncUids s []).uid_to_key u with _ | k
      · rfl
      · have h2 := ((regInv_syncUids hI List.nodup_nil).inv k u).mpr ho
        exact absurd (dget_syncUids_sub hI h2) (by simp)
    simp only [targetsFromUidListGo, getKeyFromUid, hnone]
    exact ih _ _ (regInv_syncUids hI List.nodup_nil)

theorem targetsFromUidListGo_spec {ck : List String} {stS : FolderState}
    {pairs : List (Nat × String)}
    (hfix : syncUids stS ck = stS)
    (hmem : ∀ u k, dget stS.uid_to_key u = some k → ∃ i, pairs.get? i = some (u, k))
    (hnd : (pairs.map Prod.fst).Nodup) :
    ∀ (ul : List Nat) (s0 : FolderState) (acc : List (Int × Nat × String)),
      syncUids s0 ck = stS →
      (∀ x ∈ acc, 1 ≤ x.1 ∧ pairs.get? (x.1 - 1).toNat = some x.2) →
      ∀ x ∈ (targetsFromUidListGo ck pairs ul s0 acc).2,
        1 ≤ x.1 ∧ pairs.get? (x.1 - 1).toNat = some x.2 := by
  intro ul
  induction ul with
  | nil => intro s0 acc _ hacc x hx; exact hacc x hx
  | cons u t ih =>
    intro s0 acc h0 hacc
    simp only [targetsFromUidListGo, getKeyFromUid, h0]
    rcases ho : dget stS.uid_to_key u with _ | k
    · exact ih stS acc hfix hacc
    · refine ih stS _ hfix ?_
      intro x hx
      rcases List.mem_append.mp hx with hx | hx
      · exact hacc x hx
      · rcases List.mem_singleton.mp hx with rfl
        obtain ⟨i, hi⟩ := hmem u k ho
        rw [dget_uidSeqDict_get? hnd hi]
        refine ⟨by simp only [Option.getD_some]; omega, ?_⟩
        simp only [Option.getD_some]
        have : ((i : Int) + 1 - 1).toNat = i := by omega
        rw [this, hi]

/-- C3: in one FETCH response the reported sequence numbers are 1-based
positions in the live-message list sorted by UID ascending.  Concretely:
the pair list built by `_get_message_uid_key_pairs` is strictly sorted by
UID and contains exactly the live messages with their registry UIDs, and
every `(seq, uid, key)` target produced by `_get_targets_from_seq_list`
(sequence-number FETCH) or `_get_targets_from_uid_list` (UID FETCH)
satisfies `seq ≥ 1` and `pairs[seq - 1] = (uid, key)`. -/
theorem claim_seq_numbers_sorted_position (s : FolderState) (ck : List String)
    (seqList : List Int) (uidList : List Nat)
    (h : Reachable s) (hck : ck.Nodup) :
    List.Pairwise (fun a b : Nat × String => a.1 < b.1) (messagePairs s ck).2 ∧
    (∀ u k, (u, k) ∈ (messagePairs s ck).2 ↔
        k ∈ ck ∧ dget (syncUids s ck).key_to_uid k = some u) ∧
    (∀ x ∈ targetsFromSeqList seqList (messagePairs s ck).2,
        1 ≤ x.1 ∧ (messagePairs s ck).2.get? (x.1 - 1).toNat = some x.2) ∧
    (∀ x ∈ (targetsFromUidList uidList (messagePairs s ck).1 ck
        (messagePairs s ck).2).2,
        1 ≤ x.1 ∧ (messagePairs s ck).2.get? (x.1 - 1).toNat = some x.2) := by
  have hI : RegInv s := reachable_regInv h
  by_cases hne : ck = []
  · subst hne
    simp only [messagePairs_nil]
    refine ⟨by simp, ?_, ?_, ?_⟩
    · intro u k; simp
    · exact targetsFromSeqList_spec seqList []
    · rw [targetsFromUidList, targetsFromUidListGo_nil uidList s [] hI]
      simp
  · have hmp := messagePairs_eq hI hck hne
    have hIss : RegInv (syncUids s ck) := regInv_syncUids hI hck
    have hfix : syncUids (syncUids s ck) ck = syncUids s ck := syncUids_idem hI hck
    have hperm : (sortPairs (rawPairs (syncUids s ck) ck)).Perm
        (rawPairs (syncUids s ck) ck) := sortPairs_perm _
    have hndfst : ((sortPairs (rawPairs (syncUids s ck) ck)).map Prod.fst).Nodup :=
      ((hperm.map Prod.fst).nodup_iff).mpr (rawPairs_fst_nodup hIss hck)
    have hlt : List.Pairwise (fun a b : Nat × String => a.1 < b.1)
        (sortPairs (rawPairs (syncUids s ck) ck)) := by
      have hle := pairwise_le_sortPairs (rawPairs (syncUids s ck) ck)
      have hne2 : List.Pairwise (fun a b : Nat × String => a.1 ≠ b.1)
          (sortPairs (rawPairs (syncUids s ck) ck)) := List.pairwise_map.mp hndfst
      exact (hle.and hne2).imp (fun hab => lt_of_le_of_ne hab.1 hab.2)
    have hmemp : ∀ u k, (u, k) ∈ sortPairs (rawPairs (syncUids s ck) ck) ↔
        k ∈ ck ∧ dget (syncUids s ck).key_to_uid k = some u := by
      intro u k; rw [hperm.mem_iff, mem_rawPairs]
    rw [hmp]
    refine ⟨hlt, hmemp, targetsFromSeqList_spec _ _, ?_⟩
    rw [targetsFromUidList]
    refine targetsFromUidListGo_spec hfix ?_ hndfst uidList (syncUids s ck) [] hfix
      (by simp)
    intro u k hk
    have h1 : dget (syncUids s ck).key_to_uid k = some u := (hIss.inv k u).mpr hk
    have h2 : k ∈ ck := dget_syncUids_sub hI h1
    exact List.mem_iff_get?.mp ((hmemp u k).mpr ⟨h2, h1⟩)

theorem claim_seq_numbers_sorted_position_witness :
    ((1 : Nat), "ka") ∈ (messagePairs ((saveMessage (initState 2) [] "ka").1) ["ka"]).2 ↔
      ("ka" ∈ ["ka"] ∧
        dget (syncUids ((saveMessage (initState 2) [] "ka").1) ["ka"]).key_to_uid "ka" =
          some 1) :=
  (claim_seq_numbers_sorted_position ((saveMessage (initState 2) [] "ka").1) ["ka"]
    [1] [1]
    ⟨2, Relation.ReflTransGen.single
      (RegStep.save (initState 2) [] "ka" List.nodup_nil (by simp))⟩
    (by decide)).2.1 1 "ka"

/-! ## Sequence-set parsing (src/server/imap_server.py, _parse_sequence_set)

Python string helpers: `pyStrip` models `str.strip()` (drop leading and
trailing whitespace), `pySplitCh` models `str.split(sep)` for a one-char
separator, `pyInt` models `int(str)` for optionally signed decimal
numerals with surrounding whitespace (the subset the protocol can
produce); a failed conversion is `none`, standing for `ValueError`. -/

def pyStripList (l : List Char) : List Char :=
  ((l.dropWhile Char.isWhitespace).reverse.dropWhile Char.isWhitespace).reverse

def pyStrip (s : String) : String := String.mk (pyStripList s.toList)

def pySplitChGo (sep : Char) : List Char → List Char → List String
  | [], acc => [String.mk acc.reverse]
  | c :: t, acc =>
    if c = sep then String.mk acc.reverse :: pySplitChGo sep t []
    else pySplitChGo sep t (c :: acc)

def pySplitCh (sep : Char) (s : String) : List String := pySplitChGo sep s.toList []

def digitsValGo : List Char → Nat → Option Nat
  | [], acc => some acc
  | c :: t, acc => if c.isDigit then digitsValGo t (acc * 10 + (c.toNat - 48)) else none

def digitsVal (l : List Char) : Option Nat :=
  match l with
  | [] => none
  | _ => digitsValGo l 0

def pyInt (s : String) : Option Int :=
  match (pyStrip s).toList with
  | [] => none
  | c :: rest =>
    if c = '+' then (digitsVal rest).map (fun n => (n : Int))
    else if c = '-' then (digitsVal rest).map (fun n => -(n : Int))
    else (digitsVal (c :: rest)).map (fun n => (n : Int))

/-- `range(a, b + 1)` as a list of integers. -/
def intRange (a b : Int) : List Int :=
  (List.range (b + 1 - a).toNat).map (fun (i : Nat) => a + (i : Int))

/-- One iteration of the `_parse_sequence_set` loop, for one comma part:
strip, range / `*` / plain-number cases, clamping into `[1, max_seq]`,
out-of-range singletons dropped, `ValueError` mapped to the error
message the Python function returns. -/
def parsePart (maxSeq : Int) (part0 : String) : Except String (List Int) :=
  let part := pyStrip part0
  if ':' ∈ part.toList then
    match pySplitCh ':' part with
    | [a, b] =>
      match (if a = "*" then some maxSeq else pyInt a),
            (if b = "*" then some maxSeq else pyInt b) with
      | some sv, some ev =>
        let s1 := max 1 (min sv maxSeq)
        let e1 := max 1 (min ev maxSeq)
        if s1 ≤ e1 then .ok (intRange s1 e1) else .ok []
      | _, _ => .error "Invalid sequence set"
    | _ => .error "Invalid sequence set"
  else
    if part = "*" then .ok [maxSeq]
    else
      match pyInt part with
      | some n => if 1 ≤ n ∧ n ≤ maxSeq then .ok [n] else .ok []
      | none => .error "Invalid sequence set"

/-- The `for seq_part in sequences.split(',')` loop: the first
`ValueError` aborts the whole parse. -/
def parseParts (maxSeq : Int) : List String → Except String (List Int)
  | [] => .ok []
  | p :: t =>
    match parsePart maxSeq p with
    | .error e => .error e
    | .ok l1 =>
      match parseParts maxSeq t with
      | .error e => .error e
      | .ok l2 => .ok (l1 ++ l2)

/-- `sorted(set(seq_list))`: strictly increasing list of the distinct
elements. -/
def insertSortedNodup (x : Int) : List Int → List Int
  | [] => [x]
  | y :: ys =>
    if x < y then x :: y :: ys
    else if x = y then y :: ys
    else y :: insertSortedNodup x ys

def pySortedSet (l : List Int) : List Int :=
  l.foldl (fun acc x => insertSortedNodup x acc) []

/-- `FetchProcessor._parse_sequence_set`. -/
def parseSequenceSet (sequences : String) (maxSeq : Int) : Except String (List Int) :=
  match parseParts maxSeq (pySplitCh ',' sequences) with
  | .error e => .error e
  | .ok l => .ok (pySortedSet l)

/-- Well-formed numeral: after stripping, nonempty and all decimal digits. -/
def numStrB (s : String) : Bool :=
  decide ((pyStrip s).toList ≠ []) && (pyStrip s).toList.all Char.isDigit

def validArmB (a : String) : Bool := decide (a = "*") || numStrB a

/-- A comma part that is a decimal integer, `*`, or a `a:b` range of
those (the range arms taken verbatim, as the source does not strip them). -/
def validPartB (p : String) : Bool :=
  decide (pyStrip p = "*") || numStrB p ||
    (match pySplitCh ':' (pyStrip p) with
     | [a, b] => validArmB a && validArmB b
     | _ => false)

theorem digit_not_ws {c : Char} (h : c.isDigit = true) : c.isWhitespace = false := by
  cases hw : c.isWhitespace
  · rfl
  · exfalso
    have h4 : c = ' ' ∨ c = '\t' ∨ c = '\r' ∨ c = '\n' := by
      simp only [Char.isWhitespace, Bool.or_eq_true, decide_eq_true_eq] at hw
      tauto
    rcases h4 with hw | hw | hw | hw <;> subst hw <;> exact absurd h (by decide)

theorem digit_ne_colon {c : Char} (h : c.isDigit = true) : c ≠ ':' := by
  intro he; rw [he] at h; exact absurd h (by decide)

theorem digit_ne_star {c : Char} (h : c.isDigit = true) : c ≠ '*' := by
  intro he; rw [he] at h; exact absurd h (by decide)

theorem pyStripList_of_digits {l : List Char} (hne : l ≠ [])
    (hd : ∀ c ∈ l, c.isDigit = true) : pyStripList l = l := by
  have h1 : l.dropWhile Char.isWhitespace = l := by
    cases l with
    | nil => rfl
    | cons c t =>
      have hcw := digit_not_ws (hd c (by simp))
      rw [List.dropWhile_cons, if_neg (by simp [hcw])]
  have h2 : l.reverse.dropWhile Char.isWhitespace = l.reverse := by
    cases hr : l.reverse with
    | nil => rfl
    | cons c t =>
      have hc : c ∈ l := by
        rw [← List.mem_reverse, hr]; simp
      have hcw := digit_not_ws (hd c hc)
      rw [List.dropWhile_cons, if_neg (by simp [hcw])]
  rw [pyStripList, h1, h2, List.reverse_reverse]

theorem toList_pyStrip (s : String) : (pyStrip s).toList = pyStripList s.toList := rfl

theorem pyStrip_mk (l : List Char) : pyStrip (String.mk l) = String.mk (pyStripList l) := rfl

theorem digitsValGo_isSome :
    ∀ (l : List Char) (acc : Nat), (∀ c ∈ l, c.isDigit = true) →
      ∃ n, digitsValGo l acc = some n := by
  intro l
  induction l with
  | nil => intro acc _; exact ⟨acc, rfl⟩
  | cons c t ih =>
    intro acc hd
    rw [digitsValGo, if_pos (hd c (by simp))]
    exact ih _ (fun c' hc' => hd c' (by simp [hc']))

theorem pyInt_some_of_digits {s : String} (hne : (pyStrip s).toList ≠ [])
    (hd : ∀ c ∈ (pyStrip s).toList, c.isDigit = true) :
    ∃ n : Nat, pyInt s = some (n : Int) := by
  rcases hl : (pyStrip s).toList with _ | ⟨c, rest⟩
  · exact absurd hl hne
  · rw [hl] at hd
    have hcd : c.isDigit = true := hd c (by simp)
    have hplus : ¬ c = '+' := by
      intro he; rw [he] at hcd; exact absurd hcd (by decide)
    have hminus : ¬ c = '-' := by
      intro he; rw [he] at hcd; exact absurd hcd (by decide)
    obtain ⟨n, hn⟩ := digitsValGo_isSome (c :: rest) 0 hd
    refine ⟨n, ?_⟩
    simp only [pyInt, hl]
    rw [if_neg hplus, if_neg hminus]
    have hdv : digitsVal (c :: rest) = some n := hn
    rw [hdv]
    rfl

theorem numStrB_spec {s : String} (h : numStrB s = true) :
    (pyStrip s).toList ≠ [] ∧ ∀ c ∈ (pyStrip s).toList, c.isDigit = true := by
  rw [numStrB, Bool.and_eq_true, decide_eq_true_eq, List.all_eq_true] at h
  exact h

/-- `pyStrip` is the identity on all-digit strings, so the double strip
performed by `int(seq_part.strip())` is harmless. -/
theorem pyStrip_pyStrip_of_digits {s : String} (h : numStrB s = true) :
    pyStrip (pyStrip s) = pyStrip s := by
  obtain ⟨hne, hd⟩ := numStrB_spec h
  have : pyStripList (pyStrip s).toList = (pyStrip s).toList :=
    pyStripList_of_digits hne hd
  show String.mk (pyStripList (pyStrip s).toList) = pyStrip s
  rw [this]
  cases hs : pyStrip s
  rw [← hs]
  rfl

theorem pyInt_pyStrip_some {s : String} (h : numStrB s = true) :
    ∃ n : Nat, pyInt (pyStrip s) = some (n : Int) := by
  obtain ⟨hne, hd⟩ := numStrB_spec h
  have hid := pyStrip_pyStrip_of_digits h
  refine pyInt_some_of_digits ?_ ?_
  · rw [hid]; exact hne
  · rw [hid]; exact hd

theorem pySplitChGo_length (sep : Char) :
    ∀ (l acc : List Char), (pySplitChGo sep l acc).length = l.count sep + 1 := by
  intro l
  induction l with
  | nil => intro acc; simp [pySplitChGo]
  | cons c t ih =>
    intro acc
    by_cases hc : c = sep
    · rw [pySplitChGo, if_pos hc, List.length_cons, ih]
      subst hc
      rw [List.count_cons_self]
    · rw [pySplitChGo, if_neg hc, ih, List.count_cons_of_ne (fun he => hc he.symm)]

theorem mem_of_pySplitCh_pair {sep : Char} {s : String} {a b : String}
    (h : pySplitCh sep s = [a, b]) : sep ∈ s.toList := by
  have hlen : (pySplitCh sep s).length = 2 := by rw [h]; rfl
  rw [pySplitCh, pySplitChGo_length] at hlen
  have : s.toList.count sep = 1 := by omega
  have hpos : 0 < s.toList.count sep := by omega
  exact List.count_pos_iff.mp hpos

theorem mem_intRange {a b x : Int} (h : x ∈ intRange a b) : a ≤ x ∧ x ≤ b := by
  rw [intRange] at h
  rcases List.mem_map.mp h with ⟨i, hi, hx⟩
  rw [List.mem_range] at hi
  subst hx
  omega

theorem mem_insertSortedNodup {x a : Int} {l : List Int} :
    a ∈ insertSortedNodup x l ↔ a = x ∨ a ∈ l := by
  induction l with
  | nil => simp [insertSortedNodup]
  | cons y ys ih =>
    by_cases h1 : x < y
    · rw [insertSortedNodup, if_pos h1]
      simp [List.mem_cons]
    · by_cases h2 : x = y
      · rw [insertSortedNodup, if_neg h1, if_pos h2]
        subst h2
        simp [List.mem_cons]
      · rw [insertSortedNodup, if_neg h1, if_neg h2]
        simp only [List.mem_cons, ih]
        tauto

theorem pairwise_lt_insertSortedNodup {x : Int} {l : List Int}
    (h : List.Pairwise (· < ·) l) :
    List.Pairwise (· < ·) (insertSortedNodup x l) := by
  induction l with
  | nil => simp [insertSortedNodup]
  | cons y ys ih =>
    rw [List.pairwise_cons] at h
    by_cases h1 : x < y
    · rw [insertSortedNodup, if_pos h1, List.pairwise_cons]
      refine ⟨fun z hz => ?_, List.pairwise_cons.mpr h⟩
      rcases List.mem_cons.mp hz with hz | hz
      · exact hz ▸ h1
      · exact lt_trans h1 (h.1 z hz)
    · by_cases h2 : x = y
      · rw [insertSortedNodup, if_neg h1, if_pos h2, List.pairwise_cons]
        exact h
      · rw [insertSortedNodup, if_neg h1, if_neg h2, List.pairwise_cons]
        have hyx : y < x := by omega
        refine ⟨fun z hz => ?_, ih h.2⟩
        rcases mem_insertSortedNodup.mp hz with hz | hz
        · exact hz ▸ hyx
        · exact h.1 z hz

theorem pairwise_lt_pySortedSet (l : List Int) :
    List.Pairwise (· < ·) (pySortedSet l) := by
  suffices aux : ∀ (l acc : List Int), List.Pairwise (· < ·) acc →
      List.Pairwise (· < ·) (l.foldl (fun acc x => insertSortedNodup x acc) acc) by
    exact aux l [] (by simp)
  intro l
  induction l with
  | nil => intro acc h; exact h
  | cons x t ih =>
    intro acc h
    simp only [List.foldl_cons]
    exact ih _ (pairwise_lt_insertSortedNodup h)

theorem mem_pySortedSet {a : Int} {l : List Int} :
    a ∈ pySortedSet l ↔ a ∈ l := by
  suffices aux : ∀ (l acc : List Int),
      (a ∈ l.foldl (fun acc x => insertSortedNodup x acc) acc ↔ a ∈ acc ∨ a ∈ l) by
    rw [pySortedSet, aux l []]
    simp
  intro l
  induction l with
  | nil => intro acc; simp
  | cons x t ih =>
    intro acc
    simp only [List.foldl_cons, ih, mem_insertSortedNodup, List.mem_cons]
    tauto

theorem parsePart_eq_of_split {maxSeq : Int} {p a b : String}
    (hcol : ':' ∈ (pyStrip p).toList)
    (hsp : pySplitCh ':' (pyStrip p) = [a, b]) :
    parsePart maxSeq p =
      (match (if a = "*" then some maxSeq else pyInt a),
             (if b = "*" then some maxSeq else pyInt b) with
       | some sv, some ev =>
         if max 1 (min sv maxSeq) ≤ max 1 (min ev maxSeq) then
           .ok (intRange (max 1 (min sv maxSeq)) (max 1 (min ev maxSeq)))
         else .ok []
       | _, _ => .error "Invalid sequence set") := by
  simp only [parsePart]
  rw [if_pos hcol, hsp]

theorem parsePart_valid {maxSeq : Int} (hm : 1 ≤ maxSeq) {p : String}
    (hv : validPartB p = true) :
    ∃ c, parsePart maxSeq p = .ok c ∧ ∀ x ∈ c, 1 ≤ x ∧ x ≤ maxSeq := by
  rw [validPartB, Bool.or_eq_true, Bool.or_eq_true] at hv
  rcases hv with (hv | hv) | hv
  · rw [decide_eq_true_eq] at hv
    have hnc : ¬ (':' ∈ (pyStrip p).toList) := by rw [hv]; decide
    refine ⟨[maxSeq], ?_, ?_⟩
    · simp only [parsePart]
      rw [if_neg hnc, if_pos hv]
    · intro x hx
      rcases List.mem_singleton.mp hx with rfl
      exact ⟨hm, le_refl _⟩
  · obtain ⟨hne, hd⟩ := numStrB_spec hv
    have hnc : ¬ (':' ∈ (pyStrip p).toList) := fun hmem => digit_ne_colon (hd _ hmem) rfl
    have hns : ¬ (pyStrip p = "*") := by
      intro he
      have hst : '*' ∈ (pyStrip p).toList := by rw [he]; decide
      exact digit_ne_star (hd _ hst) rfl
    obtain ⟨n, hn⟩ := pyInt_pyStrip_some hv
    by_cases hr : 1 ≤ (n : Int) ∧ (n : Int) ≤ maxSeq
    · refine ⟨[(n : Int)], ?_, ?_⟩
      · simp only [parsePart]
        rw [if_neg hnc, if_neg hns]
        simp only [hn]
        rw [if_pos hr]
      · intro x hx
        rcases List.mem_singleton.mp hx with rfl
        exact hr
    · refine ⟨[], ?_, by simp⟩
      simp only [parsePart]
      rw [if_neg hnc, if_neg hns]
      simp only [hn]
      rw [if_neg hr]
  · rcases hsp : pySplitCh ':' (pyStrip p) with _ | ⟨a, rest⟩
    · rw [hsp] at hv; exact absurd hv (by simp)
    · rcases rest with _ | ⟨b, rest2⟩
      · rw [hsp] at hv; exact absurd hv (by simp)
      · rcases rest2 with _ | ⟨x2, rest3⟩
        · rw [hsp] at hv
          simp only [Bool.and_eq_true] at hv
          obtain ⟨hva, hvb⟩ := hv
          have hcol : ':' ∈ (pyStrip p).toList := mem_of_pySplitCh_pair hsp
          have ha : ∃ sv : Int, (if a = "*" then some maxSeq else pyInt a) = some sv := by
            by_cases hstar : a = "*"
            · exact ⟨maxSeq, by rw [if_pos hstar]⟩
            · have hnum : numStrB a = true := by
                rw [validArmB, Bool.or_eq_true] at hva
                rcases hva with h | h
                · exact absurd (of_decide_eq_true h) hstar
                · exact h
              obtain ⟨n, hn⟩ :=
                pyInt_some_of_digits (numStrB_spec hnum).1 (numStrB_spec hnum).2
              exact ⟨(n : Int), by rw [if_neg hstar, hn]⟩
          have hbv : ∃ ev : Int, (if b = "*" then some maxSeq else pyInt b) = some ev := by
            by_cases hstar : b = "*"
            · exact ⟨maxSeq, by rw [if_pos hstar]⟩
            · have hnum : numStrB b = true := by
                rw [validArmB, Bool.or_eq_true] at hvb
                rcases hvb with h | h
                · exact absurd (of_decide_eq_true h) hstar
                · exact h
              obtain ⟨n, hn⟩ :=
                pyInt_some_of_digits (numStrB_spec hnum).1 (numStrB_spec hnum).2
              exact ⟨(n : Int), by rw [if_neg hstar, hn]⟩
          obtain ⟨sv, hsv⟩ := ha
          obtain ⟨ev, hev⟩ := hbv
          have heq : parsePart maxSeq p =
              (if max 1 (min sv maxSeq) ≤ max 1 (min ev maxSeq) then
                Except.ok (intRange (max 1 (min sv maxSeq)) (max 1 (min ev maxSeq)))
              else Except.ok []) := by
            rw [parsePart_eq_of_split hcol hsp, hsv, hev]
          by_cases hle : max 1 (min sv maxSeq) ≤ max 1 (min ev maxSeq)
          · refine ⟨intRange (max 1 (min sv maxSeq)) (max 1 (min ev maxSeq)), ?_, ?_⟩
            · rw [heq, if_pos hle]
            · intro x hx
              have hb2 := mem_intRange hx
              have h1 : (1 : Int) ≤ max 1 (min sv maxSeq) := le_max_left _ _
              have h2 : max 1 (min ev maxSeq) ≤ maxSeq := by
                have h3 : min ev maxSeq ≤ maxSeq := min_le_right _ _
                omega
              exact ⟨le_trans h1 hb2.1, le_trans hb2.2 h2⟩
          · exact ⟨[], by rw [heq, if_neg hle], by simp⟩
        · rw [hsp] at hv; exact absurd hv (by simp)

theorem parseParts_valid {maxSeq : Int} (hm : 1 ≤ maxSeq) :
    ∀ (ps : List String), (∀ p ∈ ps, validPartB p = true) →
      ∃ l, parseParts maxSeq ps = .ok l ∧ (∀ x ∈ l, 1 ≤ x ∧ x ≤ maxSeq) ∧
        ∀ p ∈ ps, ∃ c, parsePart maxSeq p = .ok c ∧ ∀ x ∈ c, x ∈ l := by
  intro ps
  induction ps with
  | nil => intro _; exact ⟨[], rfl, by simp, by simp⟩
  | cons p t ih =>
    intro hv
    obtain ⟨c, hc, hcb⟩ := parsePart_valid hm (hv p (by simp))
    obtain ⟨l2, hl2, hl2b, hl2c⟩ := ih (fun q hq => hv q (by simp [hq]))
    refine ⟨c ++ l2, ?_, ?_, ?_⟩
    · rw [parseParts, hc, hl2]
    · intro x hx
      rcases List.mem_append.mp hx with hx | hx
      · exact hcb x hx
      · exact hl2b x hx
    · intro q hq
      rcases List.mem_cons.mp hq with rfl | hq
      · exact ⟨c, hc, fun x hx => List.mem_append.mpr (Or.inl hx)⟩
      · obtain ⟨c', hc', hcs⟩ := hl2c q hq
        exact ⟨c', hc', fun x hx => List.mem_append.mpr (Or.inr (hcs x hx))⟩

/-- C10: for max_seq ≥ 1 and a sequence-set string whose comma parts are
each a decimal integer, `*`, or a colon range of those,
`_parse_sequence_set` never takes its error branch and returns a strictly
increasing, duplicate-free list of integers inside `[1, max_seq]`;
moreover every part is itself parsed without error (so in particular
out-of-range singletons are dropped silently, never reported), and each
part's contribution is contained in the result. -/
theorem claim_sequence_set_parse_safe (sequences : String) (maxSeq : Int)
    (hm : 1 ≤ maxSeq)
    (hv : ∀ p ∈ pySplitCh ',' sequences, validPartB p = true) :
    ∃ l, parseSequenceSet sequences maxSeq = .ok l ∧
      List.Pairwise (· < ·) l ∧ (∀ x ∈ l, 1 ≤ x ∧ x ≤ maxSeq) ∧
      ∀ p ∈ pySplitCh ',' sequences,
        ∃ c, parsePart maxSeq p = .ok c ∧ ∀ x ∈ c, x ∈ l := by
  obtain ⟨l0, hl0, hb, hcontrib⟩ := parseParts_valid hm _ hv
  refine ⟨pySortedSet l0, ?_, pairwise_lt_pySortedSet l0, ?_, ?_⟩
  · rw [parseSequenceSet, hl0]
  · intro x hx
    exact hb x (mem_pySortedSet.mp hx)
  · intro p hp
    obtain ⟨c, hc, hcs⟩ := hcontrib p hp
    exact ⟨c, hc, fun x hx => mem_pySortedSet.mpr (hcs x hx)⟩

theorem claim_sequence_set_parse_safe_witness :
    ∃ l, parseSequenceSet "1, 3:5 ,*" 4 = .ok l ∧
      List.Pairwise (· < ·) l ∧ (∀ x ∈ l, 1 ≤ x ∧ x ≤ 4) ∧
      ∀ p ∈ pySplitCh ',' "1, 3:5 ,*",
        ∃ c, parsePart 4 p = .ok c ∧ ∀ x ∈ c, x ∈ l :=
  claim_sequence_set_parse_safe "1, 3:5 ,*" 4 (by decide) (by decide)

/-! ## Kernel-reducible string helpers

Core `String.toUpper`, `startsWith`, `drop`, ... are defined through
byte-position loops that the kernel does not unfold, so the embedding
uses these character-list versions (ASCII case mapping, as Python's
`str.upper`/`lower` behave on the protocol's ASCII data). -/

def strUpper (s : String) : String := String.mk (s.toList.map Char.toUpper)

def strLower (s : String) : String := String.mk (s.toList.map Char.toLower)

def strStartsWith (s p : String) : Bool := p.toList.isPrefixOf s.toList

def strEndsWith (s p : String) : Bool := p.toList.reverse.isPrefixOf s.toList.reverse

def strDrop (s : String) (n : Nat) : String := String.mk (s.toList.drop n)

def strDropRight (s : String) (n : Nat) : String :=
  String.mk (s.toList.take (s.toList.length - n))

def strLen (s : String) : Nat := s.toList.length

/-- Substring test on character lists (decidable, kernel-reducible). -/
def listInfixCh (needle : List Char) : List Char → Bool
  | [] => needle.isEmpty
  | c :: t => needle.isPrefixOf (c :: t) || listInfixCh needle t

/-! ## Message model and FETCH data items (src/server/imap_fetcher.py)

`PyMessage` models a single-part `MaildirMessage`: parsed headers (ordered,
with duplicates), decoded body text, Maildir flag letters, the Maildir
subdirectory (`new` or `cur`), and the formatted delivery timestamp
(`dateStr`, standing for `formatdate(msg.get_date())`, an environment
input).  The MIME-structure getters (`ENVELOPE`, `BODY`, `BODYSTRUCTURE`)
are modelled for these single-part messages. -/

structure PyMessage where
  headers : List (String × String)
  bodyText : String
  flags : List Char
  subdir : String
  dateStr : String
deriving DecidableEq

/-- `email.message.Message.get`: first matching header, case-insensitive. -/
def msgGet (m : PyMessage) (name : String) : Option String :=
  (m.headers.find? (fun p => decide (strLower p.1 = strLower name))).map Prod.snd

/-- `Helpers.get_message_headers`. -/
def getMessageHeaders (m : PyMessage) : String :=
  m.headers.foldl (fun acc p => acc ++ p.1 ++ ": " ++ p.2 ++ "\r\n") ""

/-- `Helpers.get_message_body` for the single-part case: the decoded
payload. -/
def getMessageBody (m : PyMessage) : String := m.bodyText

/-- `str(msg)` / `msg.as_string(unixfrom=False)`: headers, a blank line,
then the body. -/
def msgAsString (m : PyMessage) : String :=
  (m.headers.foldl (fun acc p => acc ++ p.1 ++ ": " ++ p.2 ++ "\n") "") ++ "\n" ++ m.bodyText

/-- The Maildir-letter to IMAP-flag map of `DataGetters.get_flags`. -/
def flagMapChar (c : Char) : Option String :=
  if c = 'S' then some "\\Seen"
  else if c = 'R' then some "\\Answered"
  else if c = 'F' then some "\\Flagged"
  else if c = 'T' then some "\\Deleted"
  else if c = 'D' then some "\\Draft"
  else none

/-- `DataGetters.get_flags`: `\Recent` first when the file sits in `new/`,
then the mapped persistent flags in their stored order. -/
def getFlags (m : PyMessage) : String :=
  let recent := if m.subdir = "new" then ["\\Recent"] else []
  "(" ++ String.intercalate " " (recent ++ m.flags.filterMap flagMapChar) ++ ")"

/-- `{N}\r\n<content>` with `N` the UTF-8 byte count. -/
def mkLiteral (s : String) : String :=
  "\x7b" ++ toString s.utf8ByteSize ++ "\x7d\r\n" ++ s

def getRfc822 (m : PyMessage) : String := mkLiteral (msgAsString m)

def getRfc822Header (m : PyMessage) : String := mkLiteral (getMessageHeaders m)

def getRfc822Text (m : PyMessage) : String := mkLiteral (getMessageBody m)

def getRfc822Size (m : PyMessage) : String := toString (msgAsString m).utf8ByteSize

def getInternalDate (m : PyMessage) : String := m.dateStr

/-- `email.utils.parseaddr`, modelled for the name-addr (`Name <mb@host>`)
and bare addr-spec forms. -/
def pyParseAddr (s : String) : String × String :=
  if '<' ∈ s.toList then
    (pyStrip (String.mk (s.toList.takeWhile (fun c => ¬ c = '<'))),
     String.mk (((s.toList.dropWhile (fun c => ¬ c = '<')).drop 1).takeWhile
       (fun c => ¬ c = '>')))
  else ("", pyStrip s)

/-- `Helpers.format_address_field`. -/
def formatAddressField (addr : Option String) : String :=
  match addr with
  | none => "NIL"
  | some a =>
    if a = "" then "NIL"
    else
      let pr := pyParseAddr (pyStrip a)
      let email := pr.2
      let rev := email.toList.reverse
      let mbHost :=
        if '@' ∈ email.toList then
          (String.mk (((rev.dropWhile (fun c => ¬ c = '@')).drop 1).reverse),
           String.mk ((rev.takeWhile (fun c => ¬ c = '@')).reverse))
        else (email, "")
      let namePart := if pr.1 = "" then "NIL" else "\"" ++ pr.1 ++ "\""
      "((" ++ namePart ++ " NIL \"" ++ mbHost.1 ++ "\" \"" ++ mbHost.2 ++ "\"))"

/-- A non-address ENVELOPE field: the raw value when truthy, else `NIL`. -/
def envStrField (v : Option String) : String :=
  match v with
  | some s => if s = "" then "NIL" else s
  | none => "NIL"

/-- `DataGetters.get_envelope`. -/
def getEnvelope (m : PyMessage) : String :=
  "(" ++ String.intercalate " "
    [envStrField (msgGet m "Date"), envStrField (msgGet m "Subject"),
     formatAddressField (msgGet m "From"), formatAddressField (msgGet m "Sender"),
     formatAddressField (msgGet m "Reply-To"), formatAddressField (msgGet m "To"),
     formatAddressField (msgGet m "Cc"), formatAddressField (msgGet m "Bcc"),
     envStrField (msgGet m "In-Reply-To"), envStrField (msgGet m "Message-ID")] ++ ")"

/-- `Content-Type` main and sub type, defaulting to `text/plain`. -/
def contentTypeOf (m : PyMessage) : String × String :=
  let ct := (msgGet m "Content-Type").getD "text/plain"
  let beforeSemi := ct.toList.takeWhile (fun c => ¬ c = ';')
  (String.mk (beforeSemi.takeWhile (fun c => ¬ c = '/')),
   String.mk ((beforeSemi.dropWhile (fun c => ¬ c = '/')).drop 1))

/-- `DataGetters.get_bodystructure` restricted to the single-part message
model (the `fmt_part` non-multipart path; MIME parameters are not carried
by the model, so `param_str` is `NIL`). -/
def getBodyStructure (m : PyMessage) (extended : Bool) : String :=
  let ctp := contentTypeOf m
  let maintype := strUpper ctp.1
  let subtype := strUpper ctp.2
  let cid := "\"" ++ (msgGet m "Content-ID").getD "NIL" ++ "\""
  let desc := "\"" ++ (msgGet m "Content-Description").getD "NIL" ++ "\""
  let enc := "\"" ++ strUpper ((msgGet m "Content-Transfer-Encoding").getD "7BIT") ++ "\""
  let size := toString (msgAsString m).utf8ByteSize
  let extFields :=
    if extended then
      let dispHeader := (msgGet m "Content-Disposition").getD ""
      let dispValue :=
        strLower (String.mk (pyStripList (dispHeader.toList.takeWhile (fun c => ¬ c = ';'))))
      let disposition :=
        if dispHeader = "" then "NIL"
        else if dispValue = "" then "NIL"
        else "(\"" ++ dispValue ++ "\" NIL)"
      let lang := (msgGet m "Content-Language").getD ""
      let language :=
        if lang = "" then "NIL"
        else "(" ++ String.intercalate " "
          ((pySplitCh ',' lang).map (fun l => "\"" ++ pyStrip l ++ "\"")) ++ ")"
      let loc := (msgGet m "Content-Location").getD ""
      let location := if loc = "" then "NIL" else "\"" ++ loc ++ "\""
      " " ++ disposition ++ " " ++ language ++ " " ++ location
    else ""
  if maintype = "TEXT" then
    let lines := toString ((msgAsString m).toList.count '\n')
    "(\"" ++ maintype ++ "\" \"" ++ subtype ++ "\" NIL " ++ cid ++ " " ++ desc ++ " " ++
      enc ++ " " ++ size ++ " " ++ lines ++ ")" ++ extFields
  else
    "(\"" ++ maintype ++ "\" \"" ++ subtype ++ "\" NIL " ++ cid ++ " " ++ desc ++ " " ++
      enc ++ " " ++ size ++ ")" ++ extFields

/-- `DataGetters.get_header_value(name, default)`: quoted first value, the
default when the header is missing or empty. -/
def getHeaderValue (name dflt : String) (m : PyMessage) : String :=
  let v := (msgGet m name).getD ""
  "\"" ++ (if v = "" then dflt else v) ++ "\""

/-! ### BODY[...] section handling (class BodyPatternHandler) -/

/-- `re.match(r'^BODY\[(.*)\]$', item, re.IGNORECASE)`: the group is the
text between the first `[` and the final `]`. -/
def sectionOfBody (item : String) : Option String :=
  if strStartsWith (strUpper item) "BODY[" ∧ strEndsWith item "]" ∧ 6 ≤ strLen item then
    some (strDropRight (strDrop item 5) 1)
  else none

/-- `re.match(r'^BODY\.PEEK\[(.*)\]$', item, re.IGNORECASE)`. -/
def sectionOfBodyPeek (item : String) : Option String :=
  if strStartsWith (strUpper item) "BODY.PEEK[" ∧ strEndsWith item "]" ∧ 11 ≤ strLen item then
    some (strDropRight (strDrop item 10) 1)
  else none

/-- `re.match(r'HEADER\.FIELDS\s+\((.*?)\)', section, re.IGNORECASE)`:
the requested-field list between the parentheses, original casing. -/
def parseHeaderFieldList (sec : String) : Option String :=
  if strStartsWith (strUpper sec) "HEADER.FIELDS" then
    match (strDrop sec 13).toList with
    | [] => none
    | c :: rest =>
      if c.isWhitespace then
        match rest.dropWhile Char.isWhitespace with
        | '(' :: rest3 =>
          if ')' ∈ rest3 then
            some (String.mk (rest3.takeWhile (fun ch => ¬ ch = ')')))
          else none
        | _ => none
      else none
  else none

/-- `re.match(r'HEADER\.FIELDS\.NOT\s+\((.*?)\)', section, re.IGNORECASE)`. -/
def parseHeaderFieldListNot (sec : String) : Option String :=
  if strStartsWith (strUpper sec) "HEADER.FIELDS.NOT" then
    match (strDrop sec 17).toList with
    | [] => none
    | c :: rest =>
      if c.isWhitespace then
        match rest.dropWhile Char.isWhitespace with
        | '(' :: rest3 =>
          if ')' ∈ rest3 then
            some (String.mk (rest3.takeWhile (fun ch => ¬ ch = ')')))
          else none
        | _ => none
      else none
  else none

/-- `str.split()` with no separator: whitespace-delimited words, empties
dropped. -/
def pyWordsGo : List Char → List Char → List String
  | [], acc => if acc.isEmpty then [] else [String.mk acc.reverse]
  | c :: t, acc =>
    if c.isWhitespace then
      if acc.isEmpty then pyWordsGo t [] else String.mk acc.reverse :: pyWordsGo t []
    else pyWordsGo t (c :: acc)

def pyWords (s : String) : List String := pyWordsGo s.toList []

/-- `header_map = {name.lower(): (name, value) for name, value in msg.items()}`:
for a duplicated header the LAST occurrence wins. -/
def headerMap (m : PyMessage) : List (String × (String × String)) :=
  m.headers.foldl (fun d p => dinsert d (strLower p.1) (p.1, p.2)) []

/-- `BodyPatternHandler._extract_header_fields`: iterate the REQUESTED
fields and emit the header-map entry of each one present. -/
def extractHeaderFields (m : PyMessage) (sec : String) : Option String :=
  match parseHeaderFieldList sec with
  | none => none
  | some content =>
    let requested := (pyWords content).map pyStrip
    let hmap := headerMap m
    let hdrs := requested.foldl (fun acc f =>
      match dget hmap (strLower f) with
      | some nv => acc ++ nv.1 ++ ": " ++ nv.2 ++ "\r\n"
      | none => acc) ""
    some (mkLiteral hdrs)

/-- `BodyPatternHandler._extract_header_fields_not`. -/
def extractHeaderFieldsNot (m : PyMessage) (sec : String) : Option String :=
  match parseHeaderFieldListNot sec with
  | none => none
  | some content =>
    let excluded := (pyWords content).map (fun f => strLower (pyStrip f))
    let hdrs := m.headers.foldl (fun acc p =>
      if strLower p.1 ∈ excluded then acc else acc ++ p.1 ++ ": " ++ p.2 ++ "\r\n") ""
    some (mkLiteral hdrs)

/-- `BodyPatternHandler.handle_body_section`.  Note that `BODY[]` returns
the bare message text and `HEADER` / `TEXT` the bare block, while the
`HEADER.FIELDS` variants return a `{N}` literal — exactly as the source
does. -/
def handleBodySection (m : PyMessage) (item : String) : Option String :=
  match sectionOfBody item with
  | none => none
  | some sec =>
    if sec = "" then some (msgAsString m)
    else if strStartsWith (strUpper sec) "HEADER.FIELDS.NOT" then
      extractHeaderFieldsNot m sec
    else if strStartsWith (strUpper sec) "HEADER.FIELDS" then
      extractHeaderFields m sec
    else if strUpper sec = "HEADER" then some (getMessageHeaders m)
    else if strUpper sec = "TEXT" then some (getMessageBody m)
    else none

/-- `BodyPatternHandler.handle_body_peek_section`. -/
def handleBodyPeekSection (m : PyMessage) (item : String) : Option String :=
  match sectionOfBodyPeek item with
  | none => none
  | some sec =>
    if sec = "" then some (item ++ " \"" ++ msgAsString m ++ "\"")
    else if strStartsWith (strUpper sec) "HEADER.FIELDS.NOT" then
      extractHeaderFieldsNot m sec
    else if strStartsWith (strUpper sec) "HEADER.FIELDS" then
      extractHeaderFields m sec
    else if strUpper sec = "HEADER" then
      some (item ++ " \"" ++ getMessageHeaders m ++ "\"")
    else if strUpper sec = "TEXT" then
      some (item ++ " \"" ++ getMessageBody m ++ "\"")
    else none

/-! ### The Fetcher dispatch and the FETCH command loop
(class Fetcher; FetchProcessor._handle_fetch_command) -/

/-- The `DATA_GETTERS` table of `Fetcher.__init__`. -/
def dataGetter (itemUpper : String) (m : PyMessage) : Option String :=
  if itemUpper = "FLAGS" then some (getFlags m)
  else if itemUpper = "INTERNALDATE" then some (getInternalDate m)
  else if itemUpper = "RFC822.SIZE" then some (getRfc822Size m)
  else if itemUpper = "RFC822" then some (getRfc822 m)
  else if itemUpper = "RFC822.HEADER" then some (getRfc822Header m)
  else if itemUpper = "RFC822.TEXT" then some (getRfc822Text m)
  else if itemUpper = "ENVELOPE" then some (getEnvelope m)
  else if itemUpper = "BODY" then some (getBodyStructure m false)
  else if itemUpper = "BODYSTRUCTURE" then some (getBodyStructure m true)
  else if itemUpper = "FROM" then some (getHeaderValue "From" "testuser@enerturk.com" m)
  else if itemUpper = "TO" then some (getHeaderValue "To" "testuser@enerturk.com" m)
  else if itemUpper = "CC" then some (getHeaderValue "Cc" "" m)
  else if itemUpper = "SUBJECT" then some (getHeaderValue "Subject" "Test Email" m)
  else if itemUpper = "DATE" then
    some (getHeaderValue "Date" "Mon, 1 Jan 2024 12:00:00 +0000" m)
  else if itemUpper = "MESSAGE-ID" then
    some (getHeaderValue "Message-ID" "<test@enerturk.com>" m)
  else if itemUpper = "REFERENCES" then some (getHeaderValue "References" "" m)
  else if itemUpper = "IN-REPLY-TO" then some (getHeaderValue "In-Reply-To" "" m)
  else if itemUpper = "CONTENT-TYPE" then
    some (getHeaderValue "Content-Type" "text/plain" m)
  else if itemUpper = "REPLY-TO" then some (getHeaderValue "Reply-To" "" m)
  else none

def matchesBodyPat (itemUpper : String) : Bool :=
  strStartsWith itemUpper "BODY[" && strEndsWith itemUpper "]"

def matchesBodyPeekPat (itemUpper : String) : Bool :=
  strStartsWith itemUpper "BODY.PEEK[" && strEndsWith itemUpper "]"

/-- An `Optional[str]` interpolated into an f-string: Python renders
`None` as the text `None`. -/
def optStr (o : Option String) : String :=
  match o with
  | some s => s
  | none => "None"

/-- `Fetcher.handle_fetch_item`: pattern handlers first (matched against
the uppercased item, invoked on the original), then the data getters. -/
def handleFetchItem (item : String) (m : PyMessage) : Option String :=
  let itemUpper := strUpper item
  if matchesBodyPat itemUpper then
    some (item ++ " " ++ optStr (handleBodySection m item))
  else if matchesBodyPeekPat itemUpper then
    some (item ++ " " ++ optStr (handleBodyPeekSection m item))
  else (dataGetter itemUpper m).map (fun v => item ++ " " ++ v)

/-- The character loop state of `Fetcher.parse_fetch_items`. -/
structure FIState where
  items : List String
  cur : String
  bd : Int
  pd : Int
  inq : Bool
deriving DecidableEq

def fiStep (st : FIState) (c : Char) : FIState :=
  if c = '"' then { st with inq := !st.inq, cur := st.cur.push c }
  else if st.inq then { st with cur := st.cur.push c }
  else if c = '[' then { st with bd := st.bd + 1, cur := st.cur.push c }
  else if c = ']' then { st with bd := st.bd - 1, cur := st.cur.push c }
  else if c = '(' then { st with pd := st.pd + 1, cur := st.cur.push c }
  else if c = ')' then { st with pd := st.pd - 1, cur := st.cur.push c }
  else if c = ' ' ∧ st.bd = 0 ∧ st.pd = 0 then
    if pyStrip st.cur = "" then st
    else { st with items := st.items ++ [pyStrip st.cur], cur := "" }
  else { st with cur := st.cur.push c }

/-- `Fetcher.parse_fetch_items`. -/
def parseFetchItems (itemNames : String) : List String :=
  let s :=
    if strStartsWith itemNames "(" ∧ strEndsWith itemNames ")" then
      strDropRight (strDrop itemNames 1) 1
    else itemNames
  let fin := s.toList.foldl fiStep
    { items := [], cur := "", bd := 0, pd := 0, inq := false }
  if pyStrip fin.cur = "" then fin.items else fin.items ++ [pyStrip fin.cur]

/-- The `MACROS` table of `_handle_fetch_command`. -/
def fetchItemShorthand (s : String) : Option (List String) :=
  if s = "ALL" then some ["FLAGS", "INTERNALDATE", "RFC822.SIZE", "ENVELOPE"]
  else if s = "FAST" then some ["FLAGS", "INTERNALDATE", "RFC822.SIZE"]
  else if s = "FULL" then
    some ["FLAGS", "INTERNALDATE", "RFC822.SIZE", "ENVELOPE", "BODY"]
  else none

/-- `if len(items) == 1 and items[0].upper() in MACROS`. -/
def expandFetchItems (items : List String) : List String :=
  match items with
  | [single] => (fetchItemShorthand (strUpper single)).getD items
  | _ => items

/-- `FetchProcessor._handle_fetch_message`. -/
def handleFetchMessage (seq : Int) (uid : Nat) (m : PyMessage)
    (items : List String) (isUid : Bool) : String :=
  let fitems := items.foldl (fun acc item =>
    if strUpper item = "UID" then acc ++ [item ++ " " ++ toString uid]
    else
      match handleFetchItem item m with
      | some r => acc ++ [r]
      | none => acc) []
  if fitems.isEmpty then ""
  else
    let fitems2 :=
      if isUid ∧ ¬ fitems.any (fun it => strStartsWith (strUpper it) "UID ") then
        ("UID " ++ toString uid) :: fitems
      else fitems
    "* " ++ toString seq ++ " FETCH (" ++ String.intercalate " " fitems2 ++ " )\r\n"

/-- `MaildirWrapper.get_message_safe`: `None` when the key has vanished
(`KeyError`). -/
def getMessageSafe (mb : List (String × PyMessage)) (key : String) : Option PyMessage :=
  dget mb key

/-- One iteration of the target loop of `_handle_fetch_command`: a missing
key (or a message that is falsy, i.e. has no headers) contributes
nothing. -/
def fetchBodyStep (mb : List (String × PyMessage)) (items : List String) (isUid : Bool)
    (acc : String) (t : Int × Nat × String) : String :=
  match getMessageSafe mb t.2.2 with
  | some m =>
    if m.headers.isEmpty then acc
    else acc ++ handleFetchMessage t.1 t.2.1 m items isUid
  | none => acc

/-- `FetchProcessor._handle_fetch_command`: format every resolvable
target, then append the tagged OK line.  The function only reads the
mailbox (via `get_message_safe`); it performs no flag write. -/
def handleFetchCommand (tag : String) (fetchTargets : List (Int × Nat × String))
    (itemNames : String) (mb : List (String × PyMessage)) (isUid : Bool) : String :=
  let items := expandFetchItems (parseFetchItems itemNames)
  let cmdName := if isUid then "UID FETCH" else "FETCH"
  (fetchTargets.foldl (fetchBodyStep mb items isUid) "") ++
    tag ++ " OK " ++ cmdName ++ " completed\r\n"

/-- Insertion into a sorted character list (`sorted(flags)` of
`MaildirMessage.set_flags`). -/
def insChar (c : Char) : List Char → List Char
  | [] => [c]
  | d :: t => if c.toNat ≤ d.toNat then c :: d :: t else d :: insChar c t

def sortChars (l : List Char) : List Char := l.foldr insChar []

/-- `MaildirWrapper.get_message_with_seen_flag` (src/async_storage.py):
the seen-marking read the storage layer provides "for non-PEEK
operations".  It returns the (possibly re-flagged) message and the
updated mailbox.  The server-side FETCH path never calls it. -/
def getMessageWithSeenFlag (mb : List (String × PyMessage)) (key : String) :
    Option PyMessage × List (String × PyMessage) :=
  match dget mb key with
  | none => (none, mb)
  | some m =>
    if 'S' ∈ m.flags then (some m, mb)
    else
      let m2 := { m with flags := sortChars (m.flags ++ ['S']) }
      (some m2, dinsert mb key m2)

/-! ## Claims C4, C6 and C9 -/

/-- A freshly delivered message without any Maildir flag. -/
def sampleUnseen : PyMessage :=
  { headers := [("Subject", "Hi"), ("From", "x@y")], bodyText := "hello",
    flags := [], subdir := "new",
    dateStr := "Mon, 1 Jan 2024 12:00:00 +0000" }

/-- C4 (code bug): the server-side FETCH pipeline reads messages only
through `get_message_safe` and never calls the seen-marking read, so a
non-PEEK `BODY[]` fetch leaves the mailbox unchanged and a subsequent
FLAGS fetch of the same message still reports no `\Seen`; the storage
layer's `get_message_with_seen_flag` (which `BODY[]` was meant to use)
would have added the flag. -/
theorem claim_fetch_body_does_not_set_seen :
    handleFetchCommand "A5" [(1, 1, "k1")] "(BODY[])" [("k1", sampleUnseen)] false =
      "* 1 FETCH (BODY[] " ++ msgAsString sampleUnseen ++
        " )\r\nA5 OK FETCH completed\r\n" ∧
    handleFetchCommand "A6" [(1, 1, "k1")] "(FLAGS)" [("k1", sampleUnseen)] false =
      "* 1 FETCH (FLAGS (\\Recent) )\r\nA6 OK FETCH completed\r\n" ∧
    listInfixCh "\\Seen".toList
      (handleFetchCommand "A6" [(1, 1, "k1")] "(FLAGS)"
        [("k1", sampleUnseen)] false).toList = false ∧
    (getMessageWithSeenFlag [("k1", sampleUnseen)] "k1").1 =
      some { sampleUnseen with flags := ['S'] } := by
  refine ⟨by decide, by decide, by decide, by decide⟩

/-- A message carrying a duplicated header (`Received` twice). -/
def sampleDupHeaders : PyMessage :=
  { headers := [("Received", "a"), ("From", "x"), ("Received", "b")],
    bodyText := "", flags := [], subdir := "cur", dateStr := "" }

/-- The header-field filter as the specification words it: keep exactly
the requested fields that occur in the message, every occurrence, in the
message's insertion order, original casing. -/
def specHeaderFieldsLiteral (m : PyMessage) (fields : List String) : String :=
  mkLiteral ((m.headers.filter
      (fun p => (fields.map strLower).contains (strLower p.1))).foldl
    (fun acc p => acc ++ p.1 ++ ": " ++ p.2 ++ "\r\n") "")

/-- C6 counterexample: for a message with a duplicated header, the code
emits one line per REQUESTED field (the message's last occurrence), in
request order — not every occurrence in the message's insertion order as
the claim states. -/
theorem claim_header_fields_counterexample :
    extractHeaderFields sampleDupHeaders "HEADER.FIELDS (From Received)" =
      some "\x7b22\x7d\r\nFrom: x\r\nReceived: b\r\n" ∧
    specHeaderFieldsLiteral sampleDupHeaders ["From", "Received"] =
      "\x7b35\x7d\r\nReceived: a\r\nFrom: x\r\nReceived: b\r\n" ∧
    extractHeaderFields sampleDupHeaders "HEADER.FIELDS (From Received)" ≠
      some (specHeaderFieldsLiteral sampleDupHeaders ["From", "Received"]) := by
  refine ⟨by decide, by decide, by decide⟩

/-- The last message occurrence of a (lowercased) header name. -/
def lastOcc (m : PyMessage) (lname : String) : Option (String × String) :=
  m.headers.foldl (fun acc p => if strLower p.1 = lname then some (p.1, p.2) else acc) none

theorem dget_headerMap (m : PyMessage) (lname : String) :
    dget (headerMap m) lname = lastOcc m lname := by
  suffices aux : ∀ (hs : List (String × String)) (d : List (String × (String × String))),
      dget (hs.foldl (fun d p => dinsert d (strLower p.1) (p.1, p.2)) d) lname =
        hs.foldl (fun r p => if strLower p.1 = lname then some (p.1, p.2) else r)
          (dget d lname) by
    exact aux m.headers []
  intro hs
  induction hs with
  | nil => intro d; rfl
  | cons p t ih =>
    intro d
    simp only [List.foldl_cons]
    rw [ih, dget_dinsert]

/-- C6 amended: for every message and every section the field-list regex
accepts, `_extract_header_fields` returns a literal holding, for each
requested field IN REQUEST ORDER, one line per request occurrence,
carrying the LAST message occurrence of that field (original casing);
requested fields absent from the message contribute nothing.  Duplicated
message headers are collapsed to their last occurrence and the message's
insertion order is not preserved. -/
theorem claim_header_fields_request_order (m : PyMessage) (sec content : String)
    (h : parseHeaderFieldList sec = some content) :
    extractHeaderFields m sec =
      some (mkLiteral (((pyWords content).map pyStrip).foldl (fun acc f =>
        match lastOcc m (strLower f) with
        | some nv => acc ++ nv.1 ++ ": " ++ nv.2 ++ "\r\n"
        | none => acc) "")) := by
  simp only [extractHeaderFields, h, dget_headerMap]

theorem claim_header_fields_request_order_witness :
    extractHeaderFields sampleDupHeaders "HEADER.FIELDS (From)" =
      some (mkLiteral (((pyWords "From").map pyStrip).foldl (fun acc f =>
        match lastOcc sampleDupHeaders (strLower f) with
        | some nv => acc ++ nv.1 ++ ": " ++ nv.2 ++ "\r\n"
        | none => acc) "")) :=
  claim_header_fields_request_order sampleDupHeaders "HEADER.FIELDS (From)" "From"
    (by decide)

/-- C9: a fetch target whose key no longer resolves (`get_message_safe`
returns `None`) is skipped: the response is identical to that of the
target list without it — no untagged line and no error line for it — and
the command still ends in its tagged OK completion. -/
theorem claim_fetch_skips_missing_key (tag itemNames : String)
    (mb : List (String × PyMessage)) (isUid : Bool)
    (ts1 ts2 : List (Int × Nat × String)) (t : Int × Nat × String)
    (h : getMessageSafe mb t.2.2 = none) :
    handleFetchCommand tag (ts1 ++ t :: ts2) itemNames mb isUid =
      handleFetchCommand tag (ts1 ++ ts2) itemNames mb isUid ∧
    ∃ pre, handleFetchCommand tag (ts1 ++ t :: ts2) itemNames mb isUid =
      pre ++ tag ++ " OK " ++ (if isUid then "UID FETCH" else "FETCH") ++
        " completed\r\n" := by
  constructor
  · have hstep : ∀ acc,
        fetchBodyStep mb (expandFetchItems (parseFetchItems itemNames)) isUid acc t
          = acc := by
      intro acc
      simp [fetchBodyStep, h]
    simp only [handleFetchCommand]
    rw [List.foldl_append, List.foldl_append, List.foldl_cons, hstep]
  · exact ⟨_, rfl⟩

theorem claim_fetch_skips_missing_key_witness :
    handleFetchCommand "A9" [(1, 1, "k1"), (2, 5, "kx")] "(FLAGS)"
        [("k1", sampleUnseen)] false =
      handleFetchCommand "A9" [(1, 1, "k1")] "(FLAGS)" [("k1", sampleUnseen)] false :=
  (claim_fetch_skips_missing_key "A9" "(FLAGS)" [("k1", sampleUnseen)] false
    [(1, 1, "k1")] [] (2, 5, "kx") (by decide)).1

/-! ## Session layer (src/server/imap_server.py, IMAPHandler)

`pyRstrip` models `str.rstrip(chars)`: it removes trailing characters
drawn from the CHARACTER SET `chars`, not the suffix `chars` — this
distinction decides claim C5.  `pySplitN` models `str.split(sep, maxsplit)`
for a one-character separator. -/

def pyRstrip (s : String) (chars : String) : String :=
  String.mk ((s.toList.reverse.dropWhile (fun c => chars.toList.contains c)).reverse)

def pySplitChN (sep : Char) : List Char → Nat → List Char → List String
  | [], _, acc => [String.mk acc.reverse]
  | c :: t, n, acc =>
    match n with
    | 0 => [String.mk (acc.reverse ++ c :: t)]
    | m + 1 =>
      if c = sep then String.mk acc.reverse :: pySplitChN sep t m []
      else pySplitChN sep t (m + 1) (c :: acc)

def pySplitN (sep : Char) (maxsplit : Nat) (s : String) : List String :=
  pySplitChN sep s.toList maxsplit []

/-- `_read_command`: `line.decode('ascii')`, `None` (after an untagged
BAD) when a byte is not ASCII. -/
def asciiDecode (line : List Nat) : Option String :=
  if line.all (fun b => b < 128) then some (String.mk (line.map Char.ofNat)) else none

/-- `IMAPHandler._parse_command`: strip the CRLF, split on single spaces
with maxsplit 2, require at least a tag and a command, uppercase the
command. -/
def parseCommandModel (s : String) : Option (String × String × String) :=
  match pySplitN ' ' 2 (pyRstrip s "\r\n") with
  | t :: c :: rest => some (t, strUpper c, (match rest with | [a] => a | _ => ""))
  | _ => none

/-- The capability list of `IMAPHandler._handle_capability`. -/
def capabilityList : List String := ["IMAP4rev1", "AUTH=PLAIN", "LOGINDISABLED", "STARTTLS"]

def handleCapability (tag : String) : String :=
  "* CAPABILITY " ++ String.intercalate " " capabilityList ++ "\r\n" ++ tag ++
    " OK CAPABILITY completed\r\n"

/-- `IMAPHandler._send_greeting`. -/
def sendGreeting : String := "* OK Simple IMAP Server Ready\r\n"

/-- The dispatch of `_handle_command`, restricted to the stateless
commands the loop claims exercise (`CAPABILITY`, `NOOP`, and the
`not recognized` default); the stateful handlers (SELECT, FETCH, ...) are
modelled separately above. -/
def handleCommandModel (tag cmd _args : String) : String :=
  if cmd = "CAPABILITY" then handleCapability tag
  else if cmd = "NOOP" then tag ++ " OK NOOP completed\r\n"
  else tag ++ " BAD Command \x27" ++ cmd ++ "\x27 not recognized\r\n"

/-- The `handle_client` read loop over a prerecorded list of raw input
lines (each read up to CRLF), returning the responses sent:
`_read_command` answers an untagged BAD and returns `None` on a
non-ASCII line, which BREAKS the loop (the connection is then closed); a
structurally malformed line gets an untagged BAD and the loop continues;
LOGOUT answers and breaks. -/
def handleClientLines : List (List Nat) → List String
  | [] => []
  | line :: rest =>
    match asciiDecode line with
    | none => ["* BAD Command line is not valid ASCII\r\n"]
    | some cmdLine =>
      match parseCommandModel cmdLine with
      | none => "* BAD Invalid command format\r\n" :: handleClientLines rest
      | some tc =>
        if tc.2.1 = "LOGOUT" then
          ["* BYE IMAP4rev1 Server logging out\r\n" ++ tc.1 ++ " OK LOGOUT completed\r\n"]
        else handleCommandModel tc.1 tc.2.1 tc.2.2 :: handleClientLines rest

/-- `IMAPHandler._handle_authenticate` after base64 decoding: split the
credentials on NUL with maxsplit 2, require exactly three parts, consult
the oracle, and on success store `authcid.rstrip('@' + host_name)` as the
authenticated user. -/
def handleAuthPlainDecoded (decodedCreds : String) (hostName : String)
    (authOk : String → String → Bool) : Except String String :=
  match pySplitN (Char.ofNat 0) 2 decodedCreds with
  | [_authzid, authcid, password] =>
    if authOk authcid password then Except.ok (pyRstrip authcid ("@" ++ hostName))
    else Except.error "NO Invalid credentials"
  | _ => Except.error "BAD Invalid PLAIN credentials format"

/-! ## Claims C5, C7 and C8 -/

/-- C5 (code bug): `authcid.rstrip('@' + host_name)` removes trailing
characters drawn from the set `{@} ∪ chars(host_name)`, not the suffix
`@host_name`: authcid `anna@localhost` with hostname `localhost` is
stored as `ann`, not `anna` — and even a bare `anna` is truncated. -/
theorem claim_auth_rstrip_charset_bug :
    pyRstrip "anna@localhost" ("@" ++ "localhost") = "ann" ∧
    pyRstrip "anna" ("@" ++ "localhost") = "ann" ∧
    handleAuthPlainDecoded "anna\x00anna@localhost\x00pw" "localhost"
      (fun _ _ => true) = Except.ok "ann" ∧
    "ann" ≠ "anna" := by
  refine ⟨by decide, by decide, rfl, by decide⟩

/-- C7 counterexample: the greeting carries no CAPABILITY response code
at all, and the advertised capability list contains neither `LITERAL+`
nor `IDLE` (it lists `LOGINDISABLED` instead). -/
theorem claim_greeting_capability_counterexample :
    listInfixCh "[CAPABILITY".toList sendGreeting.toList = false ∧
    ¬ ("LITERAL+" ∈ capabilityList) ∧ ¬ ("IDLE" ∈ capabilityList) ∧
    "LOGINDISABLED" ∈ capabilityList := by
  refine ⟨by decide, by decide, by decide, by decide⟩

/-- C7 amended: on connect the server sends the plain greeting
`* OK Simple IMAP Server Ready` with no capability list, and CAPABILITY
advertises exactly IMAP4rev1, AUTH=PLAIN, LOGINDISABLED and STARTTLS. -/
theorem claim_greeting_and_capability_actual :
    sendGreeting = "* OK Simple IMAP Server Ready\r\n" ∧
    capabilityList = ["IMAP4rev1", "AUTH=PLAIN", "LOGINDISABLED", "STARTTLS"] ∧
    ∀ tag, handleCapability tag =
      "* CAPABILITY IMAP4rev1 AUTH=PLAIN LOGINDISABLED STARTTLS\r\n" ++ tag ++
        " OK CAPABILITY completed\r\n" := by
  refine ⟨rfl, rfl, fun tag => rfl⟩

def strBytes (s : String) : List Nat := s.toList.map Char.toNat

/-- C8 counterexample: after a non-ASCII line the server sends the
untagged BAD and then STOPS reading — a following well-formed NOOP gets
no response, though it would be answered if the session continued. -/
theorem claim_bad_line_closes_counterexample :
    handleClientLines [[65, 255, 13, 10], strBytes "A2 NOOP\r\n"] =
      ["* BAD Command line is not valid ASCII\r\n"] ∧
    ¬ ("A2 OK NOOP completed\r\n" ∈
        handleClientLines [[65, 255, 13, 10], strBytes "A2 NOOP\r\n"]) ∧
    handleClientLines [strBytes "A2 NOOP\r\n"] = ["A2 OK NOOP completed\r\n"] := by
  refine ⟨by decide, by decide, by decide⟩

/-- C8 amended: a structurally malformed (but ASCII) line yields the
untagged `* BAD Invalid command format` and the session continues with
the remaining lines; a line that is not valid ASCII yields the untagged
`* BAD Command line is not valid ASCII` and the read loop ends (the
connection is closed), so subsequent commands are NOT processed. -/
theorem claim_bad_line_behavior :
    (∀ (line : List Nat) (rest : List (List Nat)) (s : String),
      asciiDecode line = some s → parseCommandModel s = none →
      handleClientLines (line :: rest) =
        "* BAD Invalid command format\r\n" :: handleClientLines rest) ∧
    (∀ (line : List Nat) (rest : List (List Nat)), asciiDecode line = none →
      handleClientLines (line :: rest) =
        ["* BAD Command line is not valid ASCII\r\n"]) := by
  constructor
  · intro line rest s hs hp
    simp only [handleClientLines, hs, hp]
  · intro line rest h
    simp only [handleClientLines, h]

theorem claim_bad_line_behavior_witness :
    handleClientLines ([65, 255, 13, 10] :: [strBytes "A2 NOOP\r\n"]) =
      ["* BAD Command line is not valid ASCII\r\n"] :=
  claim_bad_line_behavior.2 [65, 255, 13, 10] [strBytes "A2 NOOP\r\n"] (by decide)
